import Mathlib

/-
Shallow embedding of the Range Filter Tree index of this repository
(src/src/range_filter_tree.h, struct RangeFilterTreeIndex).

Modelling conventions:
- Filter values and coordinates are embedded as rationals; the C++ code is
  generic over the filter type (float by default) and all comparisons the
  claims exercise are exact.
- size_t arithmetic is embedded as Nat.  The subtractions inside the fenwick
  planning loop only ever subtract smaller from larger at reachable states
  (the invariant proofs establish this), so truncated Nat subtraction agrees
  with size_t there.  The subtraction exclusive_end - inclusive_start in
  optimized_postfiltering_search, however, can underflow (the window can be
  inverted), so it is embedded with explicit wrapping modulo 2^64 (sizeTSub).
- parlay::sort_inplace is an external library call whose contract guarantees
  only that the output is a reordering that is non-decreasing under the
  supplied comparator.  At build time we instantiate it with a concrete
  comparison sort (List.insertionSort); at query time, where the comparator
  compares only distances and ties are left unspecified, we model the call
  relationally (IsSortOf): any distance-sorted permutation of the input.
-/

/-- Binary-search loop shared by first_greater_than and
first_greater_than_or_equal_to (range_filter_tree.h lines 170-196): while
start + 1 < end, test the predicate at mid = (start + end) / 2 and shrink the
interval; fuel bounds the iteration count (the interval at least halves each
step, so fuel = length always suffices and the fuel-0 branch coincides with
the loop exit). -/
def bsearchAux (p : Nat → Bool) : Nat → Nat → Nat → Nat
  | 0, _, e => e
  | fuel+1, s, e =>
    if s + 1 < e then
      if p ((s + e) / 2) then bsearchAux p fuel s ((s + e) / 2)
      else bsearchAux p fuel ((s + e) / 2) e
    else e

/-- Embedding of RangeFilterTreeIndex::first_greater_than (lines 170-182):
binary search over _filter_values with predicate fv[mid] > x, starting from
start = 0, end = n, returning end. -/
def first_greater_than (fv : List ℚ) (x : ℚ) : Nat :=
  bsearchAux (fun mid => decide (x < fv.getD mid 0)) fv.length 0 fv.length

/-- Embedding of RangeFilterTreeIndex::first_greater_than_or_equal_to
(lines 184-196): same loop with predicate fv[mid] >= x. -/
def first_greater_than_or_equal_to (fv : List ℚ) (x : ℚ) : Nat :=
  bsearchAux (fun mid => decide (x ≤ fv.getD mid 0)) fv.length 0 fv.length

/-- Embedding of RangeFilterTreeIndex::check_empty (lines 248-260): the query
range (lo, hi) is flagged empty when hi < _filter_values.front() or
lo > _filter_values.back(); the code logs a diagnostic exactly when this
returns true. -/
def check_empty (fv : List ℚ) (range : ℚ × ℚ) : Bool :=
  decide (range.2 < fv.headD 0) || decide (fv.getLastD 0 < range.1)

/-- Level-width loop of the private constructor (lines 222-245): starting at
current_filter_size = cutoff, while current_filter_size < 2n push the width
and double it.  Fuel-based structural recursion; fuel 2n suffices since the
width at least doubles from at least 1 each step. -/
def bucketSizesAux (n : Nat) : Nat → Nat → List Nat
  | 0, _ => []
  | fuel+1, w => if w < 2 * n then w :: bucketSizesAux n fuel (2 * w) else []

/-- The sequence _bucket_sizes built for n points with the given cutoff. -/
def buildBucketSizes (cutoff n : Nat) : List Nat :=
  bucketSizesAux n (2 * n) cutoff

/-- Bucket count of a level of width w (line 225):
num_buckets = (n + w - 1) / w. -/
def numBuckets (n w : Nat) : Nat := (n + w - 1) / w

/-- The modulus of size_t arithmetic, 2^64. -/
def sizeTMod : Nat := 18446744073709551616

/-- size_t subtraction a - b as the machine computes it: wrapping modulo
2^64.  For a >= b this is the plain difference; for a < b it wraps to
2^64 - (b - a).  Used where the source subtracts exclusive_end -
inclusive_start (lines 369 and 394), which underflows when the eligible
window is inverted (exclusive_end < inclusive_start is reachable, e.g. for
a query range [x, x] with x equal to the largest filter value). -/
def sizeTSub (a b : Nat) : Nat := (sizeTMod + a - b) % sizeTMod

/-- Sorting permutation of the public constructor (lines 89-94): the indices
0..n-1 ordered by filter value.  parlay::sort_inplace with comparator
fv[i] < fv[j] is an external unstable sort; we instantiate it with a concrete
structural comparison sort producing one valid non-decreasing order (the
source fixes no particular order among tied filter values). -/
def sortPerm (fv : List ℚ) : List Nat :=
  List.insertionSort (fun i j => fv.getD i 0 ≤ fv.getD j 0)
    (List.range fv.length)

/-- The sorted filter value sequence _filter_values (lines 109-113). -/
def filterValuesSorted (fv : List ℚ) : List ℚ :=
  (sortPerm fv).map (fun i => fv.getD i 0)

/-- The decoding map _sorted_index_to_original_point_id (lines 99-107):
sorted position to original caller index. -/
def originalIds (fv : List ℚ) : List Nat := sortPerm fv

/-- The row-gathered point data (lines 98-107), sorted position to point. -/
def pointsSorted (points : List (List ℚ)) (fv : List ℚ) : List (List ℚ) :=
  (sortPerm fv).map (fun i => points.getD i [])

/-- Modelled from the spec: the PointStore distance kernel is an external
collaborator (spec section 1 and 6, `distance(i, q) → float`; the concrete
kernel lives outside src/).  We use the squared Euclidean distance of the
underlying point types. -/
def distQ (q p : List ℚ) : ℚ :=
  (List.zipWith (fun a b => (a - b) * (a - b)) q p).sum

/-- State of the fenwick_tree_search planning loop (lines 276-318):
last_range (the covered window [lastFirst, lastSecond), with (0, 0) doubling
as the empty sentinel) and indices_to_search (pairs of bucket_size_index and
bucket index, in push order). -/
structure PlanState where
  lastFirst : Nat
  lastSecond : Nat
  plan : List (Nat × Nat)
  deriving Repr, DecidableEq

/-- One candidate bucket of the seeding scan (lines 288-299): if
bucket_start >= inclusive_start and bucket_end <= exclusive_end, push
(bucket_size_index, bucket_start / w) and set last_range to the bucket. -/
def seedStep (is ee w j : Nat) (st : PlanState) (b : Nat) : PlanState :=
  if is ≤ b * w ∧ b * w + w ≤ ee then
    { lastFirst := b * w, lastSecond := b * w + w, plan := st.plan ++ [(j, b)] }
  else st

/-- The seeding scan of one level (lines 283-300): while last_range is the
(0,0) sentinel, try every candidate bucket index in
[inclusive_start / w, exclusive_end / w). -/
def seedLevel (is ee w j : Nat) (st : PlanState) : PlanState :=
  if st.lastFirst = 0 ∧ st.lastSecond = 0 then
    (List.range' (is / w) (ee / w - is / w)).foldl (seedStep is ee w j) st
  else st

/-- Left extension of one level (lines 306-312): if
last_range.first - inclusive_start > w, move last_range.first down by w and
push the bucket now starting there. -/
def extendLeft (is w j : Nat) (st : PlanState) : PlanState :=
  if w < st.lastFirst - is then
    { lastFirst := st.lastFirst - w, lastSecond := st.lastSecond,
      plan := st.plan ++ [(j, (st.lastFirst - w) / w)] }
  else st

/-- Right extension of one level (lines 313-317): if
exclusive_end - last_range.second > w, push the bucket starting at
last_range.second and move last_range.second up by w. -/
def extendRight (ee w j : Nat) (st : PlanState) : PlanState :=
  if w < ee - st.lastSecond then
    { lastFirst := st.lastFirst, lastSecond := st.lastSecond + w,
      plan := st.plan ++ [(j, st.lastSecond / w)] }
  else st

/-- One level of the fenwick planning loop (lines 278-318), at level j of
width w: seed while last_range is the (0,0) sentinel; if it still is, continue
to the next level, otherwise extend by at most one bucket on each side. -/
def levelStep (is ee : Nat) (st : PlanState) (jw : Nat × Nat) : PlanState :=
  let st1 := seedLevel is ee jw.2 jw.1 st
  if st1.lastFirst = 0 ∧ st1.lastSecond = 0 then st1
  else extendRight ee jw.2 jw.1 (extendLeft is jw.2 jw.1 st1)

/-- The complete fenwick plan: process levels from the largest width down to
the smallest (the loop at line 278 runs bucket_size_index from
_bucket_sizes.size() - 1 down to 0). -/
def fenwickPlan (sizes : List Nat) (is ee : Nat) : PlanState :=
  (sizes.enum.reverse).foldl (levelStep is ee) ⟨0, 0, []⟩

/-- Sorted positions covered by a planned bucket (bucket_size_index, bucket):
the span [b * w, b * w + w) of its level width. -/
def bucketSpan (sizes : List Nat) (p : Nat × Nat) : Finset Nat :=
  Finset.Ico (p.2 * sizes.getD p.1 0) (p.2 * sizes.getD p.1 0 + sizes.getD p.1 0)

/-- Sorted positions covered by the whole plan. -/
def planCover (sizes : List Nat) (plan : List (Nat × Nat)) : Finset Nat :=
  plan.foldr (fun p acc => bucketSpan sizes p ∪ acc) ∅

/-- Sorted positions brute-forced by the residue loops (lines 332-343):
all of [is, ee) when last_range is still the sentinel, otherwise
[is, lastFirst) and [lastSecond, ee). -/
def residueCover (st : PlanState) (is ee : Nat) : Finset Nat :=
  if st.lastFirst = 0 ∧ st.lastSecond = 0 then Finset.Ico is ee
  else Finset.Ico is st.lastFirst ∪ Finset.Ico st.lastSecond ee

/-- The residue positions as pushed onto the frontier, in loop order. -/
def residuePositions (st : PlanState) (is ee : Nat) : List Nat :=
  if st.lastFirst = 0 ∧ st.lastSecond = 0 then List.range' is (ee - is)
  else List.range' is (st.lastFirst - is) ++ List.range' st.lastSecond (ee - st.lastSecond)

/-- Modelled from the spec: QueryParams is defined in algorithms/utils/types.h,
which is not under src/.  Spec section 6 lists the recognized fields; the field
order is the one the positional aggregate initializer at range_filter_tree.h
lines 449-456 requires (the sixth member, the one it sets to 1, is
final_beam_multiply, as the comment at line 448 states). -/
structure QueryParams where
  k : Nat
  beamSize : Nat
  cut : ℚ
  limit : Nat
  degree_limit : Nat
  final_beam_multiply : Nat
  postfiltering_max_beam : Nat
  min_query_to_bucket_ratio : Option ℚ
  verbose : Bool := false
  deriving Repr, DecidableEq

/-- The QueryParams copy built for the center search of three_split_search
(lines 449-456): a positional aggregate initializer listing qp.k, qp.beamSize,
qp.cut, qp.limit, qp.degree_limit, 1, qp.postfiltering_max_beam,
qp.min_query_to_bucket_ratio; the trailing verbose member is omitted and so
value-initialized to false. -/
def qpCopy (qp : QueryParams) : QueryParams :=
  { k := qp.k, beamSize := qp.beamSize, cut := qp.cut, limit := qp.limit,
    degree_limit := qp.degree_limit, final_beam_multiply := 1,
    postfiltering_max_beam := qp.postfiltering_max_beam,
    min_query_to_bucket_ratio := qp.min_query_to_bucket_ratio,
    verbose := false }

/-- Immutable query-time view of a built index: the filter-sorted points, the
sorted filter values and the level widths. -/
structure SearchCtx where
  points : List (List ℚ)
  fv : List ℚ
  sizes : List Nat

/-- Modelled from the spec: the SubIndex collaborator (postfilter_vamana.h and
prefiltering.h are not under src/).  Per spec sections 3 and 6 a SubIndex at
(level, bucket) answers query(q, [lo, hi], qp) with up to k pairs
(sorted_id, distance) sorted by ascending distance, whose ids lie in its own
bucket span and in [0, n), whose filter values honor the inclusive range, and
whose distances come from the PointStore kernel. -/
def SubIndexQuery (ctx : SearchCtx) (jb : Nat × Nat) (q : List ℚ)
    (range : ℚ × ℚ) (qp : QueryParams) (out : List (Nat × ℚ)) : Prop :=
  out.length ≤ qp.k ∧
  List.Pairwise (fun a b : Nat × ℚ => a.2 ≤ b.2) out ∧
  ∀ p ∈ out, p.1 ∈ bucketSpan ctx.sizes jb ∧ p.1 < ctx.points.length ∧
    range.1 ≤ ctx.fv.getD p.1 0 ∧ ctx.fv.getD p.1 0 ≤ range.2 ∧
    p.2 = distQ q (ctx.points.getD p.1 [])

/-- Contract of parlay::sort_inplace with comparator a.second < b.second
(lines 345-346 and 495-496): the external sort is not specified to be stable,
so its output is some permutation of the input that is non-decreasing in the
compared key. -/
def IsSortOf (l out : List (Nat × ℚ)) : Prop :=
  l.Perm out ∧ List.Pairwise (fun a b : Nat × ℚ => a.2 ≤ b.2) out

/-- Embedding of RangeFilterTreeIndex::fenwick_tree_search (lines 263-353) as
a relation between the query and its possible results: short-circuit on
check_empty, compute the eligible window, run the planning loop, query a
SubIndex for every planned bucket, brute-force the residues, sort the frontier
by distance and keep the first k. -/
def fenwick_tree_search (ctx : SearchCtx) (q : List ℚ) (range : ℚ × ℚ)
    (qp : QueryParams) (out : List (Nat × ℚ)) : Prop :=
  if check_empty ctx.fv range then out = []
  else
    ∃ subs : List (List (Nat × ℚ)),
      subs.length = (fenwickPlan ctx.sizes (first_greater_than ctx.fv range.1)
        (first_greater_than_or_equal_to ctx.fv range.2)).plan.length ∧
      (∀ i, i < (fenwickPlan ctx.sizes (first_greater_than ctx.fv range.1)
          (first_greater_than_or_equal_to ctx.fv range.2)).plan.length →
        SubIndexQuery ctx
          ((fenwickPlan ctx.sizes (first_greater_than ctx.fv range.1)
            (first_greater_than_or_equal_to ctx.fv range.2)).plan.getD i (0, 0))
          q range qp (subs.getD i [])) ∧
      ∃ sortedF,
        IsSortOf (subs.flatten ++
          (residuePositions
            (fenwickPlan ctx.sizes (first_greater_than ctx.fv range.1)
              (first_greater_than_or_equal_to ctx.fv range.2))
            (first_greater_than ctx.fv range.1)
            (first_greater_than_or_equal_to ctx.fv range.2)).map
            (fun i => (i, distQ q (ctx.points.getD i [])))) sortedF ∧
        out = sortedF.take qp.k

/-- Level scan of optimized_postfiltering_search (lines 373-390): find the
first (smallest-width) level whose single bucket contains the whole window,
recorded as (bucket_id, start_bucket); scanned over _bucket_sizes.enum. -/
def optScan : List (Nat × Nat) → Nat → Nat → Option (Nat × Nat)
  | [], _, _ => none
  | (j, w) :: rest, is, ee =>
      if is / w = (ee - 1) / w then some (j, is / w) else optScan rest is ee

/-- The index_key used after the scan (line 373): a default-constructed
std::pair, i.e. (0, 0), when no level matched. -/
def optIndexKey (sizes : List Nat) (is ee : Nat) : Nat × Nat :=
  (optScan sizes.enum is ee).getD (0, 0)

/-- Embedding of RangeFilterTreeIndex::optimized_postfiltering_search
(lines 355-404): check_empty short-circuit; fenwick fallback when
4 * (exclusive_end - inclusive_start) < cutoff, where the subtraction is
size_t and wraps on an inverted window (sizeTSub); then the level scan.  The
code branches nowhere on the scan's success: index_key is the
value-initialized (0, 0) possibly overwritten by the scan (optIndexKey), and
is used to index _bucket_sizes (unchecked operator[], undefined behavior out
of bounds) and _spatial_indices (checked .at, throws out of bounds), so the
relation has a defined result only when both indices are in bounds (False
otherwise); within bounds: fenwick fallback when the containing bucket is too
loose relative to min_query_to_bucket_ratio, else delegate to the single
SubIndex at index_key. -/
def optimized_postfiltering_search (ctx : SearchCtx) (cutoff : Nat)
    (q : List ℚ) (range : ℚ × ℚ) (qp : QueryParams)
    (out : List (Nat × ℚ)) : Prop :=
  if check_empty ctx.fv range then out = []
  else
    if (4 * sizeTSub (first_greater_than_or_equal_to ctx.fv range.2)
        (first_greater_than ctx.fv range.1)) % sizeTMod < cutoff then
      fenwick_tree_search ctx q range qp out
    else
      if (optIndexKey ctx.sizes (first_greater_than ctx.fv range.1)
            (first_greater_than_or_equal_to ctx.fv range.2)).1 <
          ctx.sizes.length ∧
          (optIndexKey ctx.sizes (first_greater_than ctx.fv range.1)
            (first_greater_than_or_equal_to ctx.fv range.2)).2 <
          numBuckets ctx.points.length
            (ctx.sizes.getD
              (optIndexKey ctx.sizes (first_greater_than ctx.fv range.1)
                (first_greater_than_or_equal_to ctx.fv range.2)).1 0) then
        match qp.min_query_to_bucket_ratio with
        | some ratio =>
            if ratio < ((ctx.sizes.getD
                (optIndexKey ctx.sizes (first_greater_than ctx.fv range.1)
                  (first_greater_than_or_equal_to ctx.fv range.2)).1 0 : Nat) : ℚ) /
                ((sizeTSub (first_greater_than_or_equal_to ctx.fv range.2)
                  (first_greater_than ctx.fv range.1) : Nat) : ℚ) then
              fenwick_tree_search ctx q range qp out
            else SubIndexQuery ctx
              (optIndexKey ctx.sizes (first_greater_than ctx.fv range.1)
                (first_greater_than_or_equal_to ctx.fv range.2)) q range qp out
        | none => SubIndexQuery ctx
            (optIndexKey ctx.sizes (first_greater_than ctx.fv range.1)
              (first_greater_than_or_equal_to ctx.fv range.2)) q range qp out
      else False

/-- Center-bucket scan of three_split_search (lines 413-437): levels from the
largest width down, inside a level the candidate buckets in ascending order;
the first bucket with bucket_start >= is and min(bucket_start + w, n) <= ee
wins (the goto exits both loops). -/
def threeSplitScan (n : Nat) (levels : List (Nat × Nat)) (is ee : Nat) :
    Option (Nat × Nat) :=
  levels.findSome? (fun jw =>
    ((List.range' (is / jw.2) (ee / jw.2 - is / jw.2)).find?
        (fun b => decide (is ≤ b * jw.2 ∧ min (b * jw.2 + jw.2) n ≤ ee))).map
      (fun b => (jw.1, b)))

/-- Start of the center bucket span, middle_start = bucket_index * width
(line 463). -/
def tsBucketStart (sizes : List Nat) (jb : Nat × Nat) : Nat :=
  jb.2 * sizes.getD jb.1 0

/-- End of the center bucket span, middle_end = min(middle_start + width, n)
(lines 464-465). -/
def tsBucketEnd (n : Nat) (sizes : List Nat) (jb : Nat × Nat) : Nat :=
  min (tsBucketStart sizes jb + sizes.getD jb.1 0) n

/-- Embedding of RangeFilterTreeIndex::three_split_search (lines 406-503):
fenwick fallback when no aligned bucket fits; otherwise query the center
SubIndex with the modified QueryParams copy, recurse through
optimized_postfiltering_search on the left and right remainders with the
original qp, merge, sort by distance and keep the first k. -/
def three_split_search (ctx : SearchCtx) (cutoff : Nat) (q : List ℚ)
    (range : ℚ × ℚ) (qp : QueryParams) (out : List (Nat × ℚ)) : Prop :=
  match threeSplitScan ctx.points.length ctx.sizes.enum.reverse
    (first_greater_than ctx.fv range.1)
    (first_greater_than_or_equal_to ctx.fv range.2) with
  | none => fenwick_tree_search ctx q range qp out
  | some jb =>
    ∃ centerOut leftOut rightOut : List (Nat × ℚ),
      SubIndexQuery ctx jb q range (qpCopy qp) centerOut ∧
      (if 0 < tsBucketStart ctx.sizes jb - first_greater_than ctx.fv range.1 then
        optimized_postfiltering_search ctx cutoff q
          (range.1, ctx.fv.getD (tsBucketStart ctx.sizes jb) 0) qp leftOut
       else leftOut = []) ∧
      (if 0 < first_greater_than_or_equal_to ctx.fv range.2 -
          tsBucketEnd ctx.points.length ctx.sizes jb then
        optimized_postfiltering_search ctx cutoff q
          (ctx.fv.getD (tsBucketEnd ctx.points.length ctx.sizes jb) 0, range.2)
          qp rightOut
       else rightOut = []) ∧
      ∃ sortedF, IsSortOf (centerOut ++ leftOut ++ rightOut) sortedF ∧
        out = sortedF.take qp.k

/-- The calls three_split_search issues, with the QueryParams each one
receives (for auditing parameter flow, lines 441-485). -/
inductive TSCall where
  | center (jb : Nat × Nat) (qp : QueryParams)
  | recurse (range : ℚ × ℚ) (qp : QueryParams)
  | fallback (range : ℚ × ℚ) (qp : QueryParams)
  deriving Repr, DecidableEq

/-- The call list of three_split_search on a given query: either the fenwick
fallback with the caller's qp, or the center SubIndex query with the modified
copy followed by the left and right recursive optimized_postfilter calls with
the caller's original qp. -/
def threeSplitCalls (ctx : SearchCtx) (range : ℚ × ℚ) (qp : QueryParams) :
    List TSCall :=
  match threeSplitScan ctx.points.length ctx.sizes.enum.reverse
    (first_greater_than ctx.fv range.1)
    (first_greater_than_or_equal_to ctx.fv range.2) with
  | none => [TSCall.fallback range qp]
  | some jb =>
    [TSCall.center jb (qpCopy qp)] ++
    (if 0 < tsBucketStart ctx.sizes jb - first_greater_than ctx.fv range.1 then
       [TSCall.recurse (range.1, ctx.fv.getD (tsBucketStart ctx.sizes jb) 0) qp]
     else []) ++
    (if 0 < first_greater_than_or_equal_to ctx.fv range.2 -
        tsBucketEnd ctx.points.length ctx.sizes jb then
       [TSCall.recurse (ctx.fv.getD (tsBucketEnd ctx.points.length ctx.sizes jb) 0,
         range.2) qp]
     else [])

/-- The QueryParams a call of three_split_search carries. -/
def tsCallParams : TSCall → QueryParams
  | TSCall.center _ qp => qp
  | TSCall.recurse _ qp => qp
  | TSCall.fallback _ qp => qp

/-- Whether a call of three_split_search is the center SubIndex query. -/
def tsCallIsCenter : TSCall → Bool
  | TSCall.center _ _ => true
  | _ => false

/-- The sentinel distance of batch_search (line 153):
std::numeric_limits<float>::max(), the largest finite float, whose exact
value is 2^128 - 2^104; it is not infinity. -/
def floatMax : ℚ := 340282346638528859811704183484516925440

/-- Result postprocessing of batch_search for one query (lines 146-155): k
output slots; slot j holds the decoded original id and the distance of result
j when present, and otherwise the sentinel pair (0, float max).  Distances
live in WithTop so that the float infinity the spec speaks of is expressible
as ⊤. -/
def padRow (decoding : List Nat) (results : List (Nat × ℚ)) (k : Nat) :
    List Nat × List (WithTop ℚ) :=
  ((List.range k).map (fun j =>
      if j < results.length then decoding.getD (results.getD j (0, 0)).1 0 else 0),
   (List.range k).map (fun j =>
      if j < results.length then ((results.getD j (0, 0)).2 : WithTop ℚ)
      else (floatMax : ℚ)))

/-- Proof-support invariant of the planning loop in the seeded state, relative
to the list L of levels still to be processed: last_range is a nonempty-sentinel
subwindow of [is, ee) divisible by every remaining width, the plan covers only
window positions, and the plan covers all of last_range. -/
def seededInv (sizes : List Nat) (is ee : Nat) (L : List (Nat × Nat))
    (st : PlanState) : Prop :=
  0 < st.lastSecond ∧ is ≤ st.lastFirst ∧ st.lastFirst ≤ st.lastSecond ∧
  st.lastSecond ≤ ee ∧
  (∀ p ∈ L, p.2 ∣ st.lastFirst ∧ p.2 ∣ st.lastSecond) ∧
  (∀ x ∈ planCover sizes st.plan, is ≤ x ∧ x < ee) ∧
  (∀ x, st.lastFirst ≤ x → x < st.lastSecond → x ∈ planCover sizes st.plan)

/-- Proof-support invariant of the planning loop: either still the (0,0)
sentinel with an empty plan, or the seeded invariant. -/
def planInv (sizes : List Nat) (is ee : Nat) (L : List (Nat × Nat))
    (st : PlanState) : Prop :=
  (st.lastFirst = 0 ∧ st.lastSecond = 0 ∧ st.plan = []) ∨
  seededInv sizes is ee L st

/-
Helper lemmas.  None of these is a claim theorem; claim theorems only wrap
them.
-/

lemma bsearchAux_spec (p : Nat → Bool) (n : Nat)
    (hmono : ∀ i j, i ≤ j → j < n → p i = true → p j = true) :
    ∀ fuel s e, s < e → e ≤ n → e - s ≤ fuel + 1 →
      s < bsearchAux p fuel s e ∧ bsearchAux p fuel s e ≤ e ∧
      (∀ i, s < i → i < bsearchAux p fuel s e → p i = false) ∧
      (bsearchAux p fuel s e < e → p (bsearchAux p fuel s e) = true) := by
  intro fuel
  induction fuel with
  | zero =>
    intro s e hse hen hfuel
    have he : e = s + 1 := by omega
    subst he
    simp only [bsearchAux]
    refine ⟨by omega, le_refl _, ?_, ?_⟩
    · intro i h1 h2; omega
    · intro h; omega
  | succ fuel ih =>
    intro s e hse hen hfuel
    simp only [bsearchAux]
    by_cases hlt : s + 1 < e
    · rw [if_pos hlt]
      set mid := (s + e) / 2 with hmid
      have hmid1 : s < mid := by omega
      have hmid2 : mid < e := by omega
      by_cases hp : p mid = true
      · rw [if_pos hp]
        obtain ⟨h1, h2, h3, h4⟩ := ih s mid hmid1 (by omega) (by omega)
        refine ⟨h1, by omega, h3, ?_⟩
        intro _
        rcases Nat.lt_or_ge (bsearchAux p fuel s mid) mid with h | h
        · exact h4 h
        · have : bsearchAux p fuel s mid = mid := by omega
          rw [this]; exact hp
      · rw [if_neg hp]
        obtain ⟨h1, h2, h3, h4⟩ := ih mid e hmid2 hen (by omega)
        refine ⟨by omega, h2, ?_, h4⟩
        intro i hi1 hi2
        rcases Nat.lt_or_ge mid i with h | h
        · exact h3 i h hi2
        · rcases Nat.eq_or_lt_of_le h with h' | h'
          · rw [h']; exact Bool.eq_false_iff.mpr hp
          · by_cases hpi : p i = true
            · exact absurd (hmono i mid h (by omega) hpi) hp
            · exact Bool.eq_false_iff.mpr hpi
    · rw [if_neg hlt]
      have he : e = s + 1 := by omega
      refine ⟨by omega, le_refl _, ?_, ?_⟩
      · intro i h1 h2; omega
      · intro h; omega

lemma sorted_getD_mono {fv : List ℚ} (hs : List.Sorted (· ≤ ·) fv)
    {i j : Nat} (hij : i ≤ j) (hj : j < fv.length) :
    fv.getD i 0 ≤ fv.getD j 0 := by
  rcases Nat.eq_or_lt_of_le hij with h | h
  · rw [h]
  · rw [List.getD_eq_getElem fv 0 (by omega), List.getD_eq_getElem fv 0 hj]
    exact List.pairwise_iff_getElem.mp hs i j (by omega) hj h

lemma first_greater_than_spec (fv : List ℚ) (x : ℚ) (hn : 1 ≤ fv.length)
    (hs : List.Sorted (· ≤ ·) fv) :
    1 ≤ first_greater_than fv x ∧ first_greater_than fv x ≤ fv.length ∧
    (∀ i, 1 ≤ i → i < first_greater_than fv x → ¬ x < fv.getD i 0) ∧
    (first_greater_than fv x < fv.length → x < fv.getD (first_greater_than fv x) 0) := by
  have hmono : ∀ i j, i ≤ j → j < fv.length →
      (fun mid => decide (x < fv.getD mid 0)) i = true →
      (fun mid => decide (x < fv.getD mid 0)) j = true := by
    intro i j hij hj hi
    simp only [decide_eq_true_eq] at hi ⊢
    exact lt_of_lt_of_le hi (sorted_getD_mono hs hij hj)
  obtain ⟨h1, h2, h3, h4⟩ := bsearchAux_spec _ fv.length hmono fv.length 0 fv.length
    (by omega) (le_refl _) (by omega)
  refine ⟨h1, h2, ?_, ?_⟩
  · intro i hi1 hi2
    exact of_decide_eq_false (h3 i (by omega) hi2)
  · intro h
    exact of_decide_eq_true (h4 h)

lemma first_greater_than_or_equal_to_spec (fv : List ℚ) (x : ℚ)
    (hn : 1 ≤ fv.length) (hs : List.Sorted (· ≤ ·) fv) :
    1 ≤ first_greater_than_or_equal_to fv x ∧
    first_greater_than_or_equal_to fv x ≤ fv.length ∧
    (∀ i, 1 ≤ i → i < first_greater_than_or_equal_to fv x → ¬ x ≤ fv.getD i 0) ∧
    (first_greater_than_or_equal_to fv x < fv.length →
      x ≤ fv.getD (first_greater_than_or_equal_to fv x) 0) := by
  have hmono : ∀ i j, i ≤ j → j < fv.length →
      (fun mid => decide (x ≤ fv.getD mid 0)) i = true →
      (fun mid => decide (x ≤ fv.getD mid 0)) j = true := by
    intro i j hij hj hi
    simp only [decide_eq_true_eq] at hi ⊢
    exact le_trans hi (sorted_getD_mono hs hij hj)
  obtain ⟨h1, h2, h3, h4⟩ := bsearchAux_spec _ fv.length hmono fv.length 0 fv.length
    (by omega) (le_refl _) (by omega)
  refine ⟨h1, h2, ?_, ?_⟩
  · intro i hi1 hi2
    exact of_decide_eq_false (h3 i (by omega) hi2)
  · intro h
    exact of_decide_eq_true (h4 h)

lemma bsearchAux_bounds (p : Nat → Bool) :
    ∀ fuel s e, s < e → s < bsearchAux p fuel s e ∧ bsearchAux p fuel s e ≤ e := by
  intro fuel
  induction fuel with
  | zero => intro s e hse; simp only [bsearchAux]; omega
  | succ fuel ih =>
    intro s e hse
    simp only [bsearchAux]
    by_cases hlt : s + 1 < e
    · rw [if_pos hlt]
      by_cases hp : p ((s + e) / 2) = true
      · rw [if_pos hp]
        have := ih s ((s + e) / 2) (by omega)
        omega
      · rw [if_neg hp]
        have := ih ((s + e) / 2) e (by omega)
        omega
    · rw [if_neg hlt]; omega

lemma first_greater_than_bounds (fv : List ℚ) (x : ℚ) (hn : 1 ≤ fv.length) :
    1 ≤ first_greater_than fv x ∧ first_greater_than fv x ≤ fv.length :=
  bsearchAux_bounds _ fv.length 0 fv.length (by omega)

lemma first_greater_than_or_equal_to_bounds (fv : List ℚ) (x : ℚ)
    (hn : 1 ≤ fv.length) :
    1 ≤ first_greater_than_or_equal_to fv x ∧
    first_greater_than_or_equal_to fv x ≤ fv.length :=
  bsearchAux_bounds _ fv.length 0 fv.length (by omega)

lemma bucketSizesAux_spec (n : Nat) :
    ∀ fuel w, 1 ≤ w → 2 * n ≤ 2 ^ fuel * w →
      ∃ m, bucketSizesAux n fuel w = (List.range m).map (fun j => w * 2 ^ j) ∧
        2 * n ≤ w * 2 ^ m ∧ ∀ j < m, w * 2 ^ j < 2 * n := by
  intro fuel
  induction fuel with
  | zero =>
    intro w hw hfuel
    refine ⟨0, by simp [bucketSizesAux], by simpa using hfuel, by omega⟩
  | succ fuel ih =>
    intro w hw hfuel
    simp only [bucketSizesAux]
    by_cases hlt : w < 2 * n
    · rw [if_pos hlt]
      obtain ⟨m, heq, hge, hsmall⟩ := ih (2 * w) (by omega)
        (by
          have h2 : 2 ^ fuel * (2 * w) = 2 ^ (fuel + 1) * w := by ring
          omega)
      refine ⟨m + 1, ?_, ?_, ?_⟩
      · rw [heq, List.range_succ_eq_map, List.map_cons, List.map_map]
        congr 1
        · simp
        · apply List.map_congr_left
          intro j _
          simp only [Function.comp_apply, pow_succ]
          ring
      · have h2 : w * 2 ^ (m + 1) = 2 * w * 2 ^ m := by ring
        omega
      · intro j hj
        rcases Nat.eq_zero_or_pos j with h | h
        · subst h; simpa using hlt
        · obtain ⟨j', rfl⟩ := Nat.exists_eq_succ_of_ne_zero (by omega : j ≠ 0)
          have := hsmall j' (by omega)
          show w * 2 ^ (j' + 1) < 2 * n
          have h2 : w * 2 ^ (j' + 1) = 2 * w * 2 ^ j' := by ring
          omega
    · rw [if_neg hlt]
      exact ⟨0, by simp, by omega, by omega⟩

lemma buildBucketSizes_spec (cutoff n : Nat) (hc : 1 ≤ cutoff) :
    ∃ m, buildBucketSizes cutoff n = (List.range m).map (fun j => cutoff * 2 ^ j) ∧
      2 * n ≤ cutoff * 2 ^ m ∧ ∀ j < m, cutoff * 2 ^ j < 2 * n := by
  apply bucketSizesAux_spec n (2 * n) cutoff hc
  calc 2 * n ≤ 2 ^ (2 * n) := le_of_lt (Nat.lt_two_pow (2 * n))
    _ = 2 ^ (2 * n) * 1 := by ring
    _ ≤ 2 ^ (2 * n) * cutoff := by exact Nat.mul_le_mul_left _ hc

lemma buildBucketSizes_length_spec (cutoff n : Nat) (hc : 1 ≤ cutoff) :
    buildBucketSizes cutoff n =
      (List.range (buildBucketSizes cutoff n).length).map (fun j => cutoff * 2 ^ j) ∧
    2 * n ≤ cutoff * 2 ^ (buildBucketSizes cutoff n).length ∧
    ∀ j < (buildBucketSizes cutoff n).length, cutoff * 2 ^ j < 2 * n := by
  obtain ⟨m, heq, hge, hsmall⟩ := buildBucketSizes_spec cutoff n hc
  have hlen : (buildBucketSizes cutoff n).length = m := by
    rw [heq]; simp
  rw [hlen]
  exact ⟨heq, hge, hsmall⟩

lemma buildBucketSizes_getD (cutoff n : Nat) (hc : 1 ≤ cutoff) :
    ∀ j < (buildBucketSizes cutoff n).length,
      (buildBucketSizes cutoff n).getD j 0 = cutoff * 2 ^ j := by
  intro j hj
  obtain ⟨heq, _, _⟩ := buildBucketSizes_length_spec cutoff n hc
  rw [List.getD_eq_getElem _ _ hj, List.getElem_of_eq heq hj]
  simp

lemma buildBucketSizes_pos (cutoff n : Nat) (hc : 1 ≤ cutoff) :
    ∀ w ∈ buildBucketSizes cutoff n, 0 < w := by
  intro w hw
  obtain ⟨heq, _, _⟩ := buildBucketSizes_length_spec cutoff n hc
  rw [heq] at hw
  simp only [List.mem_map, List.mem_range] at hw
  obtain ⟨j, _, rfl⟩ := hw
  positivity

lemma buildBucketSizes_ne_nil (cutoff n : Nat) (hc : 1 ≤ cutoff)
    (hcn : cutoff < 2 * n) : buildBucketSizes cutoff n ≠ [] := by
  obtain ⟨heq, hge, hsmall⟩ := buildBucketSizes_length_spec cutoff n hc
  intro h
  rw [h] at hge
  simp at hge
  omega

lemma buildBucketSizes_last_ge (cutoff n : Nat) (hc : 1 ≤ cutoff)
    (hcn : cutoff < 2 * n) :
    n ≤ (buildBucketSizes cutoff n).getD
      ((buildBucketSizes cutoff n).length - 1) 0 := by
  obtain ⟨heq, hge, hsmall⟩ := buildBucketSizes_length_spec cutoff n hc
  have hne := buildBucketSizes_ne_nil cutoff n hc hcn
  have hlen : 1 ≤ (buildBucketSizes cutoff n).length := by
    cases h : buildBucketSizes cutoff n with
    | nil => exact absurd h hne
    | cons a l => simp [h]
  rw [buildBucketSizes_getD cutoff n hc _ (by omega)]
  have : cutoff * 2 ^ (buildBucketSizes cutoff n).length =
      cutoff * 2 ^ ((buildBucketSizes cutoff n).length - 1) * 2 := by
    rw [mul_assoc, ← pow_succ]
    congr 2
    omega
  omega

lemma mem_planCover {sizes : List Nat} {plan : List (Nat × Nat)} {x : Nat} :
    x ∈ planCover sizes plan ↔ ∃ p ∈ plan, x ∈ bucketSpan sizes p := by
  induction plan with
  | nil => simp [planCover]
  | cons p rest ih =>
    simp only [planCover, List.foldr_cons, Finset.mem_union, List.mem_cons]
    constructor
    · rintro (h | h)
      · exact ⟨p, Or.inl rfl, h⟩
      · obtain ⟨p', hp', hx⟩ := ih.mp h
        exact ⟨p', Or.inr hp', hx⟩
    · rintro ⟨p', hp' | hp', hx⟩
      · subst hp'; exact Or.inl hx
      · exact Or.inr (ih.mpr ⟨p', hp', hx⟩)

lemma seedStep_inv {sizes : List Nat} {is ee w j : Nat}
    {L : List (Nat × Nat)} (hw : sizes.getD j 0 = w) (hwpos : 0 < w)
    (hdiv : ∀ p ∈ L, p.2 ∣ w) (b : Nat) {st : PlanState}
    (h : planInv sizes is ee L st) :
    planInv sizes is ee L (seedStep is ee w j st b) := by
  unfold seedStep
  by_cases hg : is ≤ b * w ∧ b * w + w ≤ ee
  · rw [if_pos hg]
    right
    have hcov : ∀ x ∈ planCover sizes st.plan, is ≤ x ∧ x < ee := by
      rcases h with ⟨_, _, hplan⟩ | hinv
      · rw [hplan]; simp [planCover]
      · exact hinv.2.2.2.2.2.1
    unfold seededInv
    dsimp only
    refine ⟨by omega, hg.1, by omega, hg.2, ?_, ?_, ?_⟩
    · intro p hp
      exact ⟨Dvd.dvd.mul_left (hdiv p hp) b,
        dvd_add (Dvd.dvd.mul_left (hdiv p hp) b) (hdiv p hp)⟩
    · intro x hx
      rw [mem_planCover] at hx
      obtain ⟨p', hp', hxs⟩ := hx
      rcases List.mem_append.mp hp' with hin | hin
      · exact hcov x (mem_planCover.mpr ⟨p', hin, hxs⟩)
      · simp only [List.mem_singleton] at hin
        subst hin
        simp only [bucketSpan, hw, Finset.mem_Ico] at hxs
        omega
    · intro x h1 h2
      rw [mem_planCover]
      refine ⟨(j, b), List.mem_append.mpr (Or.inr (List.mem_singleton.mpr rfl)), ?_⟩
      simp only [bucketSpan, hw, Finset.mem_Ico]
      omega
  · rw [if_neg hg]
    exact h

lemma seedLevel_inv {sizes : List Nat} {is ee w j : Nat}
    {L : List (Nat × Nat)} (hw : sizes.getD j 0 = w) (hwpos : 0 < w)
    (hdiv : ∀ p ∈ L, p.2 ∣ w) {st : PlanState}
    (h : planInv sizes is ee L st) :
    planInv sizes is ee L (seedLevel is ee w j st) := by
  unfold seedLevel
  by_cases hg : st.lastFirst = 0 ∧ st.lastSecond = 0
  · rw [if_pos hg]
    clear hg
    generalize List.range' (is / w) (ee / w - is / w) = bs
    induction bs generalizing st with
    | nil => exact h
    | cons b rest ih =>
      rw [List.foldl_cons]
      exact ih (seedStep_inv hw hwpos hdiv b h)
  · rw [if_neg hg]
    exact h

lemma seededInv_mono {sizes : List Nat} {is ee : Nat}
    {L L' : List (Nat × Nat)} {st : PlanState}
    (hsub : ∀ p ∈ L', p ∈ L) (h : seededInv sizes is ee L st) :
    seededInv sizes is ee L' st := by
  obtain ⟨h1, h2, h3, h4, h5, h6, h7⟩ := h
  exact ⟨h1, h2, h3, h4, fun p hp => h5 p (hsub p hp), h6, h7⟩

lemma extendLeft_inv {sizes : List Nat} {is ee w j : Nat}
    {L : List (Nat × Nat)} (hw : sizes.getD j 0 = w) (hwpos : 0 < w)
    (hdiv : ∀ p ∈ L, p.2 ∣ w) {st : PlanState}
    (hd1 : w ∣ st.lastFirst) (h : seededInv sizes is ee L st) :
    seededInv sizes is ee L (extendLeft is w j st) := by
  obtain ⟨h1, h2, h3, h4, h5, h6, h7⟩ := h
  unfold extendLeft
  by_cases hg : w < st.lastFirst - is
  · rw [if_pos hg]
    have hb : (st.lastFirst - w) / w * w = st.lastFirst - w :=
      Nat.div_mul_cancel (Nat.dvd_sub' hd1 dvd_rfl)
    unfold seededInv
    dsimp only
    refine ⟨h1, by omega, by omega, h4, ?_, ?_, ?_⟩
    · intro p hp
      exact ⟨Nat.dvd_sub' (h5 p hp).1 (hdiv p hp), (h5 p hp).2⟩
    · intro x hx
      rw [mem_planCover] at hx
      obtain ⟨p', hp', hxs⟩ := hx
      rcases List.mem_append.mp hp' with hin | hin
      · exact h6 x (mem_planCover.mpr ⟨p', hin, hxs⟩)
      · simp only [List.mem_singleton] at hin
        subst hin
        simp only [bucketSpan, hw, Finset.mem_Ico] at hxs
        omega
    · intro x hx1 hx2
      by_cases hcase : x < st.lastFirst
      · rw [mem_planCover]
        refine ⟨(j, (st.lastFirst - w) / w),
          List.mem_append.mpr (Or.inr (List.mem_singleton.mpr rfl)), ?_⟩
        simp only [bucketSpan, hw, Finset.mem_Ico]
        omega
      · rw [mem_planCover]
        have := h7 x (by omega) hx2
        rw [mem_planCover] at this
        obtain ⟨p', hp', hxs⟩ := this
        exact ⟨p', List.mem_append.mpr (Or.inl hp'), hxs⟩
  · rw [if_neg hg]
    exact ⟨h1, h2, h3, h4, h5, h6, h7⟩

lemma extendRight_inv {sizes : List Nat} {is ee w j : Nat}
    {L : List (Nat × Nat)} (hw : sizes.getD j 0 = w) (hwpos : 0 < w)
    (hdiv : ∀ p ∈ L, p.2 ∣ w) {st : PlanState}
    (hd2 : w ∣ st.lastSecond) (h : seededInv sizes is ee L st) :
    seededInv sizes is ee L (extendRight ee w j st) := by
  obtain ⟨h1, h2, h3, h4, h5, h6, h7⟩ := h
  unfold extendRight
  by_cases hg : w < ee - st.lastSecond
  · rw [if_pos hg]
    have hb : st.lastSecond / w * w = st.lastSecond := Nat.div_mul_cancel hd2
    unfold seededInv
    dsimp only
    refine ⟨by omega, h2, by omega, by omega, ?_, ?_, ?_⟩
    · intro p hp
      exact ⟨(h5 p hp).1, dvd_add (h5 p hp).2 (hdiv p hp)⟩
    · intro x hx
      rw [mem_planCover] at hx
      obtain ⟨p', hp', hxs⟩ := hx
      rcases List.mem_append.mp hp' with hin | hin
      · exact h6 x (mem_planCover.mpr ⟨p', hin, hxs⟩)
      · simp only [List.mem_singleton] at hin
        subst hin
        simp only [bucketSpan, hw, Finset.mem_Ico] at hxs
        omega
    · intro x hx1 hx2
      by_cases hcase : x < st.lastSecond
      · rw [mem_planCover]
        have := h7 x hx1 hcase
        rw [mem_planCover] at this
        obtain ⟨p', hp', hxs⟩ := this
        exact ⟨p', List.mem_append.mpr (Or.inl hp'), hxs⟩
      · rw [mem_planCover]
        refine ⟨(j, st.lastSecond / w),
          List.mem_append.mpr (Or.inr (List.mem_singleton.mpr rfl)), ?_⟩
        simp only [bucketSpan, hw, Finset.mem_Ico]
        omega
  · rw [if_neg hg]
    exact ⟨h1, h2, h3, h4, h5, h6, h7⟩

lemma levelStep_inv {sizes : List Nat} {is ee w j : Nat}
    {rest : List (Nat × Nat)} (hw : sizes.getD j 0 = w) (hwpos : 0 < w)
    (hdiv : ∀ p ∈ rest, p.2 ∣ w) {st : PlanState}
    (h : planInv sizes is ee ((j, w) :: rest) st) :
    planInv sizes is ee rest (levelStep is ee st (j, w)) := by
  have hdivL : ∀ p ∈ (j, w) :: rest, p.2 ∣ w := by
    intro p hp
    rcases List.mem_cons.mp hp with hp' | hp'
    · subst hp'; exact dvd_rfl
    · exact hdiv p hp'
  have h1 := seedLevel_inv hw hwpos hdivL h
  unfold levelStep
  dsimp only
  by_cases hs : (seedLevel is ee w j st).lastFirst = 0 ∧
      (seedLevel is ee w j st).lastSecond = 0
  · rw [if_pos hs]
    rcases h1 with hinit | hinv
    · exact Or.inl hinit
    · exact absurd hs.2 (by have h0 := hinv.1; omega)
  · rw [if_neg hs]
    rcases h1 with hinit | hinv
    · exact absurd ⟨hinit.1, hinit.2.1⟩ hs
    · right
      have hd1 : w ∣ (seedLevel is ee w j st).lastFirst :=
        (hinv.2.2.2.2.1 (j, w) (List.mem_cons_self _ _)).1
      have h2 := extendLeft_inv hw hwpos hdivL hd1 hinv
      have hd2 : w ∣ (extendLeft is w j (seedLevel is ee w j st)).lastSecond :=
        (h2.2.2.2.2.1 (j, w) (List.mem_cons_self _ _)).2
      have h3 := extendRight_inv hw hwpos hdivL hd2 h2
      exact seededInv_mono (fun p hp => List.mem_cons_of_mem _ hp) h3

lemma levelsFold_inv {sizes : List Nat} {is ee : Nat} :
    ∀ (L : List (Nat × Nat)) (st : PlanState),
      (∀ p ∈ L, sizes.getD p.1 0 = p.2 ∧ 0 < p.2) →
      List.Pairwise (fun a b => b.2 ∣ a.2) L →
      planInv sizes is ee L st →
      planInv sizes is ee [] (L.foldl (levelStep is ee) st) := by
  intro L
  induction L with
  | nil => intro st _ _ h; exact h
  | cons p rest ih =>
    intro st hchar hpair h
    obtain ⟨j, w⟩ := p
    rw [List.foldl_cons]
    have hp := List.pairwise_cons.mp hpair
    exact ih _ (fun p hp' => hchar p (List.mem_cons_of_mem _ hp')) hp.2
      (levelStep_inv (hchar (j, w) (List.mem_cons_self _ _)).1
        (hchar (j, w) (List.mem_cons_self _ _)).2 hp.1 h)

lemma planInv_union {sizes : List Nat} {is ee : Nat} {st : PlanState}
    (h : planInv sizes is ee [] st) :
    planCover sizes st.plan ∪ residueCover st is ee = Finset.Ico is ee := by
  rcases h with ⟨hf, hs, hp⟩ | hinv
  · rw [hp]
    unfold residueCover
    rw [if_pos ⟨hf, hs⟩]
    simp [planCover]
  · obtain ⟨h1, h2, h3, h4, h5, h6, h7⟩ := hinv
    unfold residueCover
    rw [if_neg (by omega)]
    ext x
    simp only [Finset.mem_union, Finset.mem_Ico]
    constructor
    · rintro (hx | hx | hx)
      · exact ⟨(h6 x hx).1, (h6 x hx).2⟩
      · omega
      · omega
    · rintro ⟨hge, hlt⟩
      by_cases hc1 : x < st.lastFirst
      · exact Or.inr (Or.inl ⟨hge, hc1⟩)
      · by_cases hc2 : st.lastSecond ≤ x
        · exact Or.inr (Or.inr ⟨hc2, hlt⟩)
        · exact Or.inl (h7 x (by omega) (by omega))

lemma sizes_enum_char {sizes : List Nat} (hpos : ∀ w ∈ sizes, 0 < w) :
    ∀ p ∈ sizes.enum.reverse, sizes.getD p.1 0 = p.2 ∧ 0 < p.2 := by
  intro p hp
  rw [List.mem_reverse] at hp
  have hget := List.mem_enum_iff_getElem?.mp hp
  have hlt : p.1 < sizes.length := by
    by_contra hc
    rw [List.getElem?_eq_none (by omega)] at hget
    exact Option.noConfusion hget
  rw [List.getElem?_eq_getElem hlt] at hget
  have heq : sizes[p.1] = p.2 := Option.some.inj hget
  constructor
  · rw [List.getD_eq_getElem _ _ hlt, heq]
  · rw [← heq]
    exact hpos _ (List.getElem_mem hlt)

lemma sizes_enum_pairwise (cutoff n : Nat) (hc : 1 ≤ cutoff) :
    List.Pairwise (fun a b : Nat × Nat => b.2 ∣ a.2)
      ((buildBucketSizes cutoff n).enum.reverse) := by
  rw [List.pairwise_reverse]
  rw [List.pairwise_iff_getElem]
  intro i j hi hj hij
  rw [List.enum_length] at hi hj
  rw [List.getElem_enum, List.getElem_enum]
  have hgi : (buildBucketSizes cutoff n)[i] = cutoff * 2 ^ i := by
    rw [← List.getD_eq_getElem _ 0 hi]
    exact buildBucketSizes_getD cutoff n hc i hi
  have hgj : (buildBucketSizes cutoff n)[j] = cutoff * 2 ^ j := by
    rw [← List.getD_eq_getElem _ 0 hj]
    exact buildBucketSizes_getD cutoff n hc j hj
  dsimp only
  rw [hgi, hgj]
  exact mul_dvd_mul_left cutoff (pow_dvd_pow 2 (by omega))

lemma fenwick_cover_union (cutoff n is ee : Nat) (hc : 1 ≤ cutoff) :
    planCover (buildBucketSizes cutoff n)
        (fenwickPlan (buildBucketSizes cutoff n) is ee).plan ∪
      residueCover (fenwickPlan (buildBucketSizes cutoff n) is ee) is ee =
    Finset.Ico is ee := by
  apply planInv_union
  unfold fenwickPlan
  apply levelsFold_inv _ _ (sizes_enum_char (buildBucketSizes_pos cutoff n hc))
    (sizes_enum_pairwise cutoff n hc)
  exact Or.inl ⟨rfl, rfl, rfl⟩

lemma sortPerm_perm (fv : List ℚ) :
    (sortPerm fv).Perm (List.range fv.length) :=
  List.perm_insertionSort _ _

lemma sortPerm_pairwise (fv : List ℚ) :
    List.Pairwise (fun i j => fv.getD i 0 ≤ fv.getD j 0) (sortPerm fv) := by
  haveI : IsTotal Nat (fun i j => fv.getD i 0 ≤ fv.getD j 0) :=
    ⟨fun a b => le_total _ _⟩
  haveI : IsTrans Nat (fun i j => fv.getD i 0 ≤ fv.getD j 0) :=
    ⟨fun a b c h1 h2 => le_trans h1 h2⟩
  exact List.sorted_insertionSort _ _

lemma filterValuesSorted_sorted (fv : List ℚ) :
    List.Sorted (· ≤ ·) (filterValuesSorted fv) := by
  unfold filterValuesSorted List.Sorted
  rw [List.pairwise_map]
  exact sortPerm_pairwise fv

lemma fenwick_tree_search_sorted {ctx : SearchCtx} {q : List ℚ}
    {range : ℚ × ℚ} {qp : QueryParams} {out : List (Nat × ℚ)}
    (h : fenwick_tree_search ctx q range qp out) :
    List.Pairwise (fun a b : Nat × ℚ => a.2 ≤ b.2) out := by
  unfold fenwick_tree_search at h
  by_cases hce : check_empty ctx.fv range = true
  · rw [if_pos hce] at h
    subst h
    exact List.Pairwise.nil
  · rw [if_neg hce] at h
    obtain ⟨subs, _, _, sortedF, ⟨_, hsort⟩, hout⟩ := h
    subst hout
    exact List.Pairwise.sublist (List.take_sublist _ _) hsort

lemma optimized_postfiltering_search_sorted {ctx : SearchCtx} {cutoff : Nat}
    {q : List ℚ} {range : ℚ × ℚ} {qp : QueryParams} {out : List (Nat × ℚ)}
    (h : optimized_postfiltering_search ctx cutoff q range qp out) :
    List.Pairwise (fun a b : Nat × ℚ => a.2 ≤ b.2) out := by
  unfold optimized_postfiltering_search at h
  by_cases hce : check_empty ctx.fv range = true
  · rw [if_pos hce] at h
    subst h
    exact List.Pairwise.nil
  · rw [if_neg hce] at h
    by_cases hsmall : (4 * sizeTSub (first_greater_than_or_equal_to ctx.fv range.2)
        (first_greater_than ctx.fv range.1)) % sizeTMod < cutoff
    · rw [if_pos hsmall] at h
      exact fenwick_tree_search_sorted h
    · rw [if_neg hsmall] at h
      by_cases hbound : (optIndexKey ctx.sizes (first_greater_than ctx.fv range.1)
            (first_greater_than_or_equal_to ctx.fv range.2)).1 <
          ctx.sizes.length ∧
          (optIndexKey ctx.sizes (first_greater_than ctx.fv range.1)
            (first_greater_than_or_equal_to ctx.fv range.2)).2 <
          numBuckets ctx.points.length
            (ctx.sizes.getD
              (optIndexKey ctx.sizes (first_greater_than ctx.fv range.1)
                (first_greater_than_or_equal_to ctx.fv range.2)).1 0)
      · rw [if_pos hbound] at h
        cases hratio : qp.min_query_to_bucket_ratio with
        | some ratio =>
          rw [hratio] at h
          dsimp only at h
          by_cases hr : ratio < ((ctx.sizes.getD
              (optIndexKey ctx.sizes (first_greater_than ctx.fv range.1)
                (first_greater_than_or_equal_to ctx.fv range.2)).1 0 : Nat) : ℚ) /
              ((sizeTSub (first_greater_than_or_equal_to ctx.fv range.2)
                (first_greater_than ctx.fv range.1) : Nat) : ℚ)
          · rw [if_pos hr] at h
            exact fenwick_tree_search_sorted h
          · rw [if_neg hr] at h
            exact h.2.1
        | none =>
          rw [hratio] at h
          dsimp only at h
          exact h.2.1
      · rw [if_neg hbound] at h
        exact h.elim

lemma three_split_search_sorted {ctx : SearchCtx} {cutoff : Nat}
    {q : List ℚ} {range : ℚ × ℚ} {qp : QueryParams} {out : List (Nat × ℚ)}
    (h : three_split_search ctx cutoff q range qp out) :
    List.Pairwise (fun a b : Nat × ℚ => a.2 ≤ b.2) out := by
  unfold three_split_search at h
  cases hscan : threeSplitScan ctx.points.length ctx.sizes.enum.reverse
    (first_greater_than ctx.fv range.1)
    (first_greater_than_or_equal_to ctx.fv range.2) with
  | none =>
    rw [hscan] at h
    dsimp only at h
    exact fenwick_tree_search_sorted h
  | some jb =>
    rw [hscan] at h
    dsimp only at h
    obtain ⟨centerOut, leftOut, rightOut, _, _, _, sortedF, ⟨_, hsort⟩, hout⟩ := h
    subst hout
    exact List.Pairwise.sublist (List.take_sublist _ _) hsort

lemma mem_enum_getD {l : List Nat} {p : Nat × Nat} (hp : p ∈ l.enum) :
    p.1 < l.length ∧ l.getD p.1 0 = p.2 := by
  have hget := List.mem_enum_iff_getElem?.mp hp
  have hlt : p.1 < l.length := by
    by_contra hc
    rw [List.getElem?_eq_none (by omega)] at hget
    exact Option.noConfusion hget
  rw [List.getElem?_eq_getElem hlt] at hget
  exact ⟨hlt, by rw [List.getD_eq_getElem _ _ hlt]; exact Option.some.inj hget⟩

lemma enum_last_mem {l : List Nat} (h : 1 ≤ l.length) :
    (l.length - 1, l.getD (l.length - 1) 0) ∈ l.enum := by
  have hlt : l.length - 1 < l.enum.length := by rw [List.enum_length]; omega
  have hmem := List.getElem_mem hlt
  rw [List.getElem_enum] at hmem
  rw [List.getD_eq_getElem _ _ (by omega : l.length - 1 < l.length)]
  exact hmem

lemma optScan_found : ∀ (L : List (Nat × Nat)) (is ee : Nat),
    (∃ p ∈ L, is / p.2 = (ee - 1) / p.2) →
    ∃ j w, optScan L is ee = some (j, is / w) ∧ (j, w) ∈ L ∧
      is / w = (ee - 1) / w := by
  intro L
  induction L with
  | nil =>
    rintro is ee ⟨p, hp, _⟩
    exact absurd hp (List.not_mem_nil p)
  | cons hd rest ih =>
    rintro is ee ⟨p', hp', hprop⟩
    obtain ⟨j, w⟩ := hd
    unfold optScan
    by_cases hg : is / w = (ee - 1) / w
    · rw [if_pos hg]
      exact ⟨j, w, rfl, List.mem_cons_self _ _, hg⟩
    · rw [if_neg hg]
      rcases List.mem_cons.mp hp' with h | h
    
      · subst h
        exact absurd hprop hg
      · obtain ⟨j', w', heq, hmem, hP⟩ := ih is ee ⟨p', h, hprop⟩
        exact ⟨j', w', heq, List.mem_cons_of_mem _ hmem, hP⟩

lemma optimized_scan_inbounds (cutoff n is ee : Nat)
    (hc : 1 ≤ cutoff) (hcn : cutoff < 2 * n) (hn : 1 ≤ n)
    (h1 : is < ee) (h2 : ee ≤ n) :
    ∃ key, optScan (buildBucketSizes cutoff n).enum is ee = some key ∧
      key.1 < (buildBucketSizes cutoff n).length ∧
      key.2 < numBuckets n ((buildBucketSizes cutoff n).getD key.1 0) := by
  have hne := buildBucketSizes_ne_nil cutoff n hc hcn
  have hlen : 1 ≤ (buildBucketSizes cutoff n).length := by
    cases h : buildBucketSizes cutoff n with
    | nil => exact absurd h hne
    | cons a l => simp [h]
  have hlast := buildBucketSizes_last_ge cutoff n hc hcn
  have hmem := enum_last_mem hlen
  have hprop : is / (buildBucketSizes cutoff n).getD
        ((buildBucketSizes cutoff n).length - 1) 0 =
      (ee - 1) / (buildBucketSizes cutoff n).getD
        ((buildBucketSizes cutoff n).length - 1) 0 := by
    rw [Nat.div_eq_of_lt (by omega), Nat.div_eq_of_lt (by omega)]
  obtain ⟨j, w, heq, hmemjw, _⟩ := optScan_found (buildBucketSizes cutoff n).enum
    is ee ⟨_, hmem, hprop⟩
  obtain ⟨hjlt, hgetD⟩ := mem_enum_getD hmemjw
  dsimp only at hjlt hgetD
  refine ⟨(j, is / w), heq, hjlt, ?_⟩
  dsimp only
  rw [hgetD]
  have hwpos : 0 < w := by
    rw [← hgetD, List.getD_eq_getElem _ _ hjlt]
    exact buildBucketSizes_pos cutoff n hc _ (List.getElem_mem hjlt)
  have hnb : numBuckets n w = (n - 1) / w + 1 := by
    unfold numBuckets
    have hrw : n + w - 1 = (n - 1) + w := by omega
    rw [hrw, Nat.add_div_right _ hwpos]
  have hdivle : is / w ≤ (n - 1) / w := Nat.div_le_div_right (by omega)
  omega

lemma optScan_some : ∀ (L : List (Nat × Nat)) (is ee : Nat) (key : Nat × Nat),
    optScan L is ee = some key →
    ∃ w, (key.1, w) ∈ L ∧ key.2 = is / w ∧ is / w = (ee - 1) / w := by
  intro L
  induction L with
  | nil =>
    intro is ee key h
    exact absurd h (by simp [optScan])
  | cons hd rest ih =>
    intro is ee key h
    obtain ⟨j, w⟩ := hd
    unfold optScan at h
    by_cases hg : is / w = (ee - 1) / w
    · rw [if_pos hg] at h
      injection h with h
      subst h
      exact ⟨w, List.mem_cons_self _ _, rfl, hg⟩
    · rw [if_neg hg] at h
      obtain ⟨w', hmem, hk, hP⟩ := ih is ee key h
      exact ⟨w', List.mem_cons_of_mem _ hmem, hk, hP⟩

lemma optIndexKey_inbounds (cutoff n is ee : Nat) (hn : 1 ≤ n)
    (hc : 1 ≤ cutoff) (hcn : cutoff < 2 * n) (hee : ee ≤ n) :
    (optIndexKey (buildBucketSizes cutoff n) is ee).1 <
      (buildBucketSizes cutoff n).length ∧
    (optIndexKey (buildBucketSizes cutoff n) is ee).2 <
      numBuckets n ((buildBucketSizes cutoff n).getD
        (optIndexKey (buildBucketSizes cutoff n) is ee).1 0) := by
  have hne := buildBucketSizes_ne_nil cutoff n hc hcn
  have hlen : 1 ≤ (buildBucketSizes cutoff n).length := by
    cases h : buildBucketSizes cutoff n with
    | nil => exact absurd h hne
    | cons a l => simp [h]
  cases hscan : optScan (buildBucketSizes cutoff n).enum is ee with
  | none =>
    have hkey : optIndexKey (buildBucketSizes cutoff n) is ee = (0, 0) := by
      unfold optIndexKey
      rw [hscan]
      rfl
    rw [hkey]
    dsimp only
    refine ⟨by omega, ?_⟩
    have hw : 0 < (buildBucketSizes cutoff n).getD 0 0 := by
      rw [List.getD_eq_getElem _ _ (by omega)]
      exact buildBucketSizes_pos cutoff n hc _ (List.getElem_mem _)
    unfold numBuckets
    have hrw : n + (buildBucketSizes cutoff n).getD 0 0 - 1 =
        (n - 1) + (buildBucketSizes cutoff n).getD 0 0 := by omega
    rw [hrw, Nat.add_div_right _ hw]
    exact Nat.succ_pos _
  | some key =>
    have hkey : optIndexKey (buildBucketSizes cutoff n) is ee = key := by
      unfold optIndexKey
      rw [hscan]
      rfl
    rw [hkey]
    obtain ⟨w, hmem, hk2, hP⟩ := optScan_some _ is ee key hscan
    obtain ⟨hjlt, hgetD⟩ := mem_enum_getD hmem
    dsimp only at hjlt hgetD
    refine ⟨hjlt, ?_⟩
    rw [hgetD]
    have hwpos : 0 < w := by
      rw [← hgetD, List.getD_eq_getElem _ _ hjlt]
      exact buildBucketSizes_pos cutoff n hc _ (List.getElem_mem hjlt)
    have hnb : numBuckets n w = (n - 1) / w + 1 := by
      unfold numBuckets
      have hrw : n + w - 1 = (n - 1) + w := by omega
      rw [hrw, Nat.add_div_right _ hwpos]
    have hdivle : (ee - 1) / w ≤ (n - 1) / w := Nat.div_le_div_right (by omega)
    rw [hk2, hP]
    omega

lemma check_empty_true {fv : List ℚ} {lo hi : ℚ}
    (hdisj : hi < fv.headD 0 ∨ fv.getLastD 0 < lo) :
    check_empty fv (lo, hi) = true := by
  unfold check_empty
  rw [Bool.or_eq_true]
  rcases hdisj with h | h
  · exact Or.inl (decide_eq_true h)
  · exact Or.inr (decide_eq_true h)

lemma headD_eq_getD (fv : List ℚ) : fv.headD 0 = fv.getD 0 0 := by
  rw [List.headD_eq_head?, List.head?_eq_getElem?, List.getD_eq_getElem?_getD]

lemma getLastD_eq_getD (fv : List ℚ) :
    fv.getLastD 0 = fv.getD (fv.length - 1) 0 := by
  rw [List.getLastD_eq_getLast?, List.getLast?_eq_getElem?,
    List.getD_eq_getElem?_getD]

lemma window_empty_of_disjoint {fv : List ℚ} {lo hi : ℚ}
    (hn : 1 ≤ fv.length) (hs : List.Sorted (· ≤ ·) fv)
    (hdisj : hi < fv.headD 0 ∨ fv.getLastD 0 < lo) :
    first_greater_than_or_equal_to fv hi ≤ first_greater_than fv lo := by
  obtain ⟨hgt1, hgt2, hgt3, hgt4⟩ := first_greater_than_spec fv lo hn hs
  obtain ⟨hge1, hge2, hge3, hge4⟩ :=
    first_greater_than_or_equal_to_spec fv hi hn hs
  rcases hdisj with h | h
  · rw [headD_eq_getD] at h
    by_contra hc
    push_neg at hc
    have h1lt : 1 < first_greater_than_or_equal_to fv hi := by omega
    have := hge3 1 (le_refl 1) h1lt
    have hmono := sorted_getD_mono hs (by omega : (0:Nat) ≤ 1) (by omega)
    exact this (by linarith)
  · rw [getLastD_eq_getD] at h
    have his : first_greater_than fv lo = fv.length := by
      by_contra hc
      have hlt : first_greater_than fv lo < fv.length := by omega
      have := hgt4 hlt
      have hmono := sorted_getD_mono hs
        (by omega : first_greater_than fv lo ≤ fv.length - 1) (by omega)
      linarith
    omega

lemma threeSplitScan_none (n : Nat) (levels : List (Nat × Nat)) {is ee : Nat}
    (h : ee ≤ is) : threeSplitScan n levels is ee = none := by
  unfold threeSplitScan
  rw [List.findSome?_eq_none_iff]
  intro jw _
  have hdiv : ee / jw.2 - is / jw.2 = 0 := by
    have := Nat.div_le_div_right (c := jw.2) h
    omega
  rw [hdiv]
  simp

lemma fenwick_empty_out {ctx : SearchCtx} {q : List ℚ} {r : ℚ × ℚ}
    {qp : QueryParams} {out : List (Nat × ℚ)}
    (hce : check_empty ctx.fv r = true)
    (h : fenwick_tree_search ctx q r qp out) : out = [] := by
  unfold fenwick_tree_search at h
  rwa [if_pos hce] at h

lemma optimized_empty_out {ctx : SearchCtx} {cutoff : Nat} {q : List ℚ}
    {r : ℚ × ℚ} {qp : QueryParams} {out : List (Nat × ℚ)}
    (hce : check_empty ctx.fv r = true)
    (h : optimized_postfiltering_search ctx cutoff q r qp out) : out = [] := by
  unfold optimized_postfiltering_search at h
  rwa [if_pos hce] at h

lemma three_split_empty_out {ctx : SearchCtx} {cutoff : Nat} {q : List ℚ}
    {lo hi : ℚ} {qp : QueryParams} {out : List (Nat × ℚ)}
    (hn : 1 ≤ ctx.fv.length) (hs : List.Sorted (· ≤ ·) ctx.fv)
    (hdisj : hi < ctx.fv.headD 0 ∨ ctx.fv.getLastD 0 < lo)
    (h : three_split_search ctx cutoff q (lo, hi) qp out) : out = [] := by
  have hwin := window_empty_of_disjoint hn hs hdisj
  unfold three_split_search at h
  rw [threeSplitScan_none ctx.points.length _ hwin] at h
  dsimp only at h
  exact fenwick_empty_out (check_empty_true hdisj) h

lemma padRow_nil (dec : List Nat) (k : Nat) :
    padRow dec [] k =
      (List.replicate k 0, List.replicate k ((floatMax : ℚ) : WithTop ℚ)) := by
  unfold padRow
  rw [Prod.mk.injEq]
  constructor
  · simp [List.map_const']
  · simp [List.map_const']

lemma fenwick_nil_of_empty {ctx : SearchCtx} {q : List ℚ} {r : ℚ × ℚ}
    {qp : QueryParams} (hce : check_empty ctx.fv r = true) :
    fenwick_tree_search ctx q r qp [] := by
  unfold fenwick_tree_search
  rw [if_pos hce]

lemma fenwick_nil_holds {ctx : SearchCtx} {q : List ℚ} {r : ℚ × ℚ}
    {qp : QueryParams} (hce : check_empty ctx.fv r = false)
    (hplan : (fenwickPlan ctx.sizes (first_greater_than ctx.fv r.1)
      (first_greater_than_or_equal_to ctx.fv r.2)).plan = [])
    (hres : residuePositions
      (fenwickPlan ctx.sizes (first_greater_than ctx.fv r.1)
        (first_greater_than_or_equal_to ctx.fv r.2))
      (first_greater_than ctx.fv r.1)
      (first_greater_than_or_equal_to ctx.fv r.2) = []) :
    fenwick_tree_search ctx q r qp [] := by
  unfold fenwick_tree_search
  rw [if_neg (by simp [hce])]
  refine ⟨[], by simp [hplan], ?_, [], ⟨?_, List.Pairwise.nil⟩,
    by rw [List.take_nil]⟩
  · intro i hi
    rw [hplan] at hi
    simp at hi
  · rw [hres]
    simp

lemma fenwick_forced_nil {ctx : SearchCtx} {q : List ℚ} {r : ℚ × ℚ}
    {qp : QueryParams} {out : List (Nat × ℚ)}
    (hplan : (fenwickPlan ctx.sizes (first_greater_than ctx.fv r.1)
      (first_greater_than_or_equal_to ctx.fv r.2)).plan = [])
    (hres : residuePositions
      (fenwickPlan ctx.sizes (first_greater_than ctx.fv r.1)
        (first_greater_than_or_equal_to ctx.fv r.2))
      (first_greater_than ctx.fv r.1)
      (first_greater_than_or_equal_to ctx.fv r.2) = [])
    (h : fenwick_tree_search ctx q r qp out) : out = [] := by
  unfold fenwick_tree_search at h
  by_cases hce : check_empty ctx.fv r = true
  · rwa [if_pos hce] at h
  · rw [if_neg hce] at h
    obtain ⟨subs, hlen, _, sortedF, ⟨hperm, _⟩, hout⟩ := h
    rw [hplan] at hlen
    have hsubs : subs = [] := List.eq_nil_of_length_eq_zero (by simpa using hlen)
    rw [hsubs, hres] at hperm
    simp only [List.flatten_nil, List.map_nil, List.nil_append] at hperm
    rw [hout, hperm.symm.eq_nil, List.take_nil]

/-
Claim theorems.
-/

/-- C1, counterexample: the no-overlap half of the claim fails.  Build n = 3,
cutoff = 1 over filter values [1, 2, 3] and query the range [1, 10]: the
window is [1, 3), the seeding level seeds both one-wide buckets (0,1) and
(0,2), but last_range only records the last of them, so the left residue loop
re-visits sorted position 1, which bucket (0,1) already covers. -/
theorem claim_C1_counterexample :
    check_empty (filterValuesSorted [(1:ℚ), 2, 3]) (1, 10) = false ∧
    (1 : Nat) ∈ planCover (buildBucketSizes 1 3)
      (fenwickPlan (buildBucketSizes 1 3)
        (first_greater_than (filterValuesSorted [(1:ℚ), 2, 3]) 1)
        (first_greater_than_or_equal_to (filterValuesSorted [(1:ℚ), 2, 3]) 10)).plan ∧
    (1 : Nat) ∈ residueCover
      (fenwickPlan (buildBucketSizes 1 3)
        (first_greater_than (filterValuesSorted [(1:ℚ), 2, 3]) 1)
        (first_greater_than_or_equal_to (filterValuesSorted [(1:ℚ), 2, 3]) 10))
      (first_greater_than (filterValuesSorted [(1:ℚ), 2, 3]) 1)
      (first_greater_than_or_equal_to (filterValuesSorted [(1:ℚ), 2, 3]) 10) := by
  decide

/-- C1, amended: for every build (cutoff >= 1) and every eligible window
[is, ee), the union of the spans of the buckets planned by fenwick_tree_search
and of the brute-forced residue ranges equals exactly [is, ee); overlap,
however, can occur (see the counterexample). -/
theorem claim_C1_amended (cutoff n is ee : Nat) (hc : 1 ≤ cutoff) :
    planCover (buildBucketSizes cutoff n)
        (fenwickPlan (buildBucketSizes cutoff n) is ee).plan ∪
      residueCover (fenwickPlan (buildBucketSizes cutoff n) is ee) is ee =
    Finset.Ico is ee :=
  fenwick_cover_union cutoff n is ee hc

/-- C1, witness for the amended theorem at cutoff = 1, n = 3, window
[1, 3). -/
theorem claim_C1_witness :
    1 ≤ 1 ∧
    (planCover (buildBucketSizes 1 3) (fenwickPlan (buildBucketSizes 1 3) 1 3).plan ∪
      residueCover (fenwickPlan (buildBucketSizes 1 3) 1 3) 1 3 =
    Finset.Ico 1 3) :=
  ⟨le_refl 1, claim_C1_amended 1 3 1 3 (le_refl 1)⟩

/-- C2, code bug: on the one-point index with filter value 1/2, both boundary
helpers are asked about x = 0, which index 0 already satisfies (1/2 > 0 and
1/2 >= 0), yet both return 1, not 0: the binary search starts with
start = 0, end = n and never examines index 0, so neither helper can ever
return 0 and sorted position 0 is excluded from every query window. -/
theorem claim_C2 :
    first_greater_than [mkRat 1 2] 0 = 1 ∧ (0:ℚ) < mkRat 1 2 ∧
    first_greater_than_or_equal_to [mkRat 1 2] 0 = 1 ∧ (0:ℚ) ≤ mkRat 1 2 := by
  decide

/-- C3, counterexample: at n = 1, cutoff = 1 the build produces exactly one
level of width 1, and that largest built width is strictly below 2n = 2,
contradicting the claimed w_(m-1) >= 2n. -/
theorem claim_C3_counterexample :
    (buildBucketSizes 1 1).length = 1 ∧
    1 * 2 ^ ((buildBucketSizes 1 1).length - 1) < 2 * 1 := by
  decide

/-- C3, amended: the level widths are w_j = cutoff * 2^j for consecutive j
starting at 0, and the number m of built levels is the least integer with
cutoff * 2^m >= 2n: every built width is < 2n and cutoff * 2^m >= 2n
(so for m >= 1 the largest built width w_(m-1) satisfies n <= w_(m-1) < 2n,
not w_(m-1) >= 2n). -/
theorem claim_C3_amended (cutoff n : Nat) (hc : 1 ≤ cutoff) (_hn : 1 ≤ n) :
    buildBucketSizes cutoff n =
      (List.range (buildBucketSizes cutoff n).length).map
        (fun j => cutoff * 2 ^ j) ∧
    2 * n ≤ cutoff * 2 ^ (buildBucketSizes cutoff n).length ∧
    ((buildBucketSizes cutoff n).length = 0 ∨
      cutoff * 2 ^ ((buildBucketSizes cutoff n).length - 1) < 2 * n) := by
  obtain ⟨heq, hge, hsmall⟩ := buildBucketSizes_length_spec cutoff n hc
  refine ⟨heq, hge, ?_⟩
  rcases Nat.eq_zero_or_pos (buildBucketSizes cutoff n).length with h | h
  · exact Or.inl h
  · exact Or.inr (hsmall _ (by omega))

/-- C3, witness for the amended theorem at cutoff = 1, n = 1. -/
theorem claim_C3_witness :
    (1 ≤ 1 ∧ 1 ≤ 1) ∧
    (buildBucketSizes 1 1 =
      (List.range (buildBucketSizes 1 1).length).map (fun j => 1 * 2 ^ j) ∧
    2 * 1 ≤ 1 * 2 ^ (buildBucketSizes 1 1).length ∧
    ((buildBucketSizes 1 1).length = 0 ∨
      1 * 2 ^ ((buildBucketSizes 1 1).length - 1) < 2 * 1)) :=
  ⟨⟨le_refl 1, le_refl 1⟩, claim_C3_amended 1 1 (le_refl 1) (le_refl 1)⟩

/-- C5, confirmed: for every raw filter sequence, the stored sorted filter
values are non-decreasing and the stored sorted-index-to-original-id map is a
permutation of 0..n-1 (a bijection from [0, n) to [0, n)). -/
theorem claim_C5 (fv : List ℚ) :
    List.Sorted (· ≤ ·) (filterValuesSorted fv) ∧
    (originalIds fv).Perm (List.range fv.length) :=
  ⟨filterValuesSorted_sorted fv, sortPerm_perm fv⟩

lemma floatMax_eq : (floatMax : ℚ) = 2 ^ 128 - 2 ^ 104 := by
  norm_num [floatMax]

lemma optimized_small_fallback {ctx : SearchCtx} {cutoff : Nat} {q : List ℚ}
    {r : ℚ × ℚ} {qp : QueryParams} {out : List (Nat × ℚ)}
    (hce : check_empty ctx.fv r = false)
    (hsmall : (4 * sizeTSub (first_greater_than_or_equal_to ctx.fv r.2)
      (first_greater_than ctx.fv r.1)) % sizeTMod < cutoff)
    (h : optimized_postfiltering_search ctx cutoff q r qp out) :
    fenwick_tree_search ctx q r qp out := by
  unfold optimized_postfiltering_search at h
  rwa [if_neg (by simp [hce]), if_pos hsmall] at h

lemma three_split_fallback {ctx : SearchCtx} {cutoff : Nat} {q : List ℚ}
    {r : ℚ × ℚ} {qp : QueryParams} {out : List (Nat × ℚ)}
    (hscan : threeSplitScan ctx.points.length ctx.sizes.enum.reverse
      (first_greater_than ctx.fv r.1)
      (first_greater_than_or_equal_to ctx.fv r.2) = none)
    (h : three_split_search ctx cutoff q r qp out) :
    fenwick_tree_search ctx q r qp out := by
  unfold three_split_search at h
  rw [hscan] at h
  dsimp only at h
  exact h

/-- C4, code bug (scenario S1): build n = 1, D = 2, points = [[1, 0]],
filter = [1/2], cutoff = 1 and search q = [1, 0], range [0, 1], k = 1.  Every
strategy is forced to return the empty result, because the eligible window is
computed as [first_greater_than(0), first_greater_than_or_equal_to(1)) =
[1, 1): the boundary helpers never return 0, so the single point (filter
value 1/2, distance 0) is unreachable.  batch_search therefore pads the row
with id 0 and distance float-max instead of the claimed distance 0. -/
theorem claim_C4 (out : List (Nat × ℚ))
    (h : fenwick_tree_search
        ⟨pointsSorted [[(1:ℚ), 0]] [mkRat 1 2], filterValuesSorted [mkRat 1 2],
          buildBucketSizes 1 1⟩ [1, 0] (0, 1) ⟨1, 10, 1, 10, 10, 1, 1, none, false⟩ out ∨
      optimized_postfiltering_search
        ⟨pointsSorted [[(1:ℚ), 0]] [mkRat 1 2], filterValuesSorted [mkRat 1 2],
          buildBucketSizes 1 1⟩ 1 [1, 0] (0, 1) ⟨1, 10, 1, 10, 10, 1, 1, none, false⟩ out ∨
      three_split_search
        ⟨pointsSorted [[(1:ℚ), 0]] [mkRat 1 2], filterValuesSorted [mkRat 1 2],
          buildBucketSizes 1 1⟩ 1 [1, 0] (0, 1) ⟨1, 10, 1, 10, 10, 1, 1, none, false⟩ out) :
    out = [] ∧
    padRow (originalIds [mkRat 1 2]) out 1 =
      ([0], [((floatMax : ℚ) : WithTop ℚ)]) := by
  have hout : out = [] := by
    rcases h with h | h | h
    · exact fenwick_forced_nil (by decide) (by decide) h
    · exact fenwick_forced_nil (by decide) (by decide)
        (optimized_small_fallback (by decide) (by decide) h)
    · exact fenwick_forced_nil (by decide) (by decide)
        (three_split_fallback (by decide) h)
  refine ⟨hout, ?_⟩
  rw [hout]
  decide

/-- C4, witness: the forced-empty execution itself exists (the fenwick
strategy admits the empty result on S1), and the padded row is
([0], [float-max]). -/
theorem claim_C4_witness :
    fenwick_tree_search
      ⟨pointsSorted [[(1:ℚ), 0]] [mkRat 1 2], filterValuesSorted [mkRat 1 2],
        buildBucketSizes 1 1⟩ [1, 0] (0, 1) ⟨1, 10, 1, 10, 10, 1, 1, none, false⟩ [] ∧
    padRow (originalIds [mkRat 1 2]) [] 1 =
      ([0], [((floatMax : ℚ) : WithTop ℚ)]) :=
  ⟨fenwick_nil_holds (by decide) (by decide) (by decide),
   (claim_C4 [] (Or.inl (fenwick_nil_holds (by decide) (by decide) (by decide)))).2⟩

/-- C6, counterexample: a valid execution of fenwick_tree_search on a real
build can return two results with equal distances in descending original-id
order.  Build n = 3, cutoff = 1000 (so the pyramid is empty and the whole
window is brute-forced) over points [[0,5],[0,1],[0,-1]] with filter
[1,2,3]; query q = [0,0], range [1,10], k = 2.  Sorted positions 1 and 2 both
have distance 1, the decoding is the identity, and the distance-only sort may
output [(2,1),(1,1)]: ids 2 then 1. -/
theorem claim_C6_counterexample :
    fenwick_tree_search
      ⟨pointsSorted [[(0:ℚ), 5], [0, 1], [0, -1]] [(1:ℚ), 2, 3],
        filterValuesSorted [(1:ℚ), 2, 3], buildBucketSizes 1000 3⟩
      [0, 0] (1, 10) ⟨2, 10, 1, 10, 10, 1, 1, none, false⟩
      [(2, 1), (1, 1)] ∧
    originalIds [(1:ℚ), 2, 3] = [0, 1, 2] := by
  constructor
  · unfold fenwick_tree_search
    rw [if_neg (by decide)]
    refine ⟨[], by decide, ?_, [((2:Nat), (1:ℚ)), (1, 1)],
      ⟨?_, by decide⟩, by decide⟩
    · intro i hi
      dsimp only at hi
      have h0 : (fenwickPlan (buildBucketSizes 1000 3)
          (first_greater_than (filterValuesSorted [(1:ℚ), 2, 3]) 1)
          (first_greater_than_or_equal_to
            (filterValuesSorted [(1:ℚ), 2, 3]) 10)).plan.length = 0 := by decide
      omega
    · dsimp only
      have hres : residuePositions
          (fenwickPlan (buildBucketSizes 1000 3)
            (first_greater_than (filterValuesSorted [(1:ℚ), 2, 3]) 1)
            (first_greater_than_or_equal_to (filterValuesSorted [(1:ℚ), 2, 3]) 10))
          (first_greater_than (filterValuesSorted [(1:ℚ), 2, 3]) 1)
          (first_greater_than_or_equal_to (filterValuesSorted [(1:ℚ), 2, 3]) 10) =
          [1, 2] := by decide
      rw [hres]
      have hp1 : (pointsSorted [[(0:ℚ), 5], [0, 1], [0, -1]] [(1:ℚ), 2, 3]).getD 1 [] =
          [0, 1] := by decide
      have hp2 : (pointsSorted [[(0:ℚ), 5], [0, 1], [0, -1]] [(1:ℚ), 2, 3]).getD 2 [] =
          [0, -1] := by decide
      simp only [List.flatten_nil, List.nil_append, List.map_cons, List.map_nil,
        hp1, hp2]
      have hd1 : distQ [0, 0] [(0:ℚ), 1] = 1 := by simp [distQ]
      have hd2 : distQ [0, 0] [(0:ℚ), -1] = 1 := by simp [distQ]
      rw [hd1, hd2]
      exact List.Perm.swap ((2:Nat), (1:ℚ)) ((1:Nat), (1:ℚ)) []
  · decide

/-- C6, amended: under every strategy every possible result sequence is
sorted by non-decreasing distance; the order among equal distances is not
specified (the final comparator only compares distances and the external sort
is not stable). -/
theorem claim_C6_amended (ctx : SearchCtx) (cutoff : Nat) (q : List ℚ)
    (range : ℚ × ℚ) (qp : QueryParams) (out : List (Nat × ℚ))
    (h : fenwick_tree_search ctx q range qp out ∨
      optimized_postfiltering_search ctx cutoff q range qp out ∨
      three_split_search ctx cutoff q range qp out) :
    List.Pairwise (fun a b : Nat × ℚ => a.2 ≤ b.2) out := by
  rcases h with h | h | h
  · exact fenwick_tree_search_sorted h
  · exact optimized_postfiltering_search_sorted h
  · exact three_split_search_sorted h

/-- C6, witness for the amended theorem: the out-of-range query of scenario
S2 admits the empty result under the fenwick strategy, which is sorted. -/
theorem claim_C6_witness :
    (fenwick_tree_search
        ⟨pointsSorted [[(0:ℚ)], [0], [0]] [(1:ℚ), 2, 3],
          filterValuesSorted [(1:ℚ), 2, 3], buildBucketSizes 1000 3⟩
        [0] (10, 20) ⟨2, 10, 1, 10, 10, 1, 1, none, false⟩ [] ∨
      optimized_postfiltering_search
        ⟨pointsSorted [[(0:ℚ)], [0], [0]] [(1:ℚ), 2, 3],
          filterValuesSorted [(1:ℚ), 2, 3], buildBucketSizes 1000 3⟩
        1000 [0] (10, 20) ⟨2, 10, 1, 10, 10, 1, 1, none, false⟩ [] ∨
      three_split_search
        ⟨pointsSorted [[(0:ℚ)], [0], [0]] [(1:ℚ), 2, 3],
          filterValuesSorted [(1:ℚ), 2, 3], buildBucketSizes 1000 3⟩
        1000 [0] (10, 20) ⟨2, 10, 1, 10, 10, 1, 1, none, false⟩ []) ∧
    List.Pairwise (fun a b : Nat × ℚ => a.2 ≤ b.2) ([] : List (Nat × ℚ)) :=
  ⟨Or.inl (fenwick_nil_of_empty (by decide)),
   claim_C6_amended
     ⟨pointsSorted [[(0:ℚ)], [0], [0]] [(1:ℚ), 2, 3],
       filterValuesSorted [(1:ℚ), 2, 3], buildBucketSizes 1000 3⟩
     1000 [0] (10, 20) ⟨2, 10, 1, 10, 10, 1, 1, none, false⟩ []
     (Or.inl (fenwick_nil_of_empty (by decide)))⟩

/-- C8, confirmed (spec-modelled QueryParams): every call three_split_search
issues carries either the modified copy (the center SubIndex query, whose
final_beam_multiply is 1) or the caller's original QueryParams unchanged (the
recursive optimized_postfilter calls and the fenwick fallback); the copy
preserves every forwarded field of the caller's value, and the caller's
QueryParams is a value that is never mutated (the embedding is pure and qp
reappears unchanged in every recursive call). -/
theorem claim_C8 (ctx : SearchCtx) (range : ℚ × ℚ) (qp : QueryParams)
    (c : TSCall) (hc : c ∈ threeSplitCalls ctx range qp) :
    tsCallParams c = (if tsCallIsCenter c then qpCopy qp else qp) ∧
    (qpCopy qp).final_beam_multiply = 1 ∧ (qpCopy qp).k = qp.k ∧
    (qpCopy qp).beamSize = qp.beamSize ∧ (qpCopy qp).cut = qp.cut ∧
    (qpCopy qp).limit = qp.limit ∧
    (qpCopy qp).degree_limit = qp.degree_limit ∧
    (qpCopy qp).postfiltering_max_beam = qp.postfiltering_max_beam ∧
    (qpCopy qp).min_query_to_bucket_ratio = qp.min_query_to_bucket_ratio := by
  refine ⟨?_, rfl, rfl, rfl, rfl, rfl, rfl, rfl, rfl⟩
  unfold threeSplitCalls at hc
  cases hscan : threeSplitScan ctx.points.length ctx.sizes.enum.reverse
      (first_greater_than ctx.fv range.1)
      (first_greater_than_or_equal_to ctx.fv range.2) with
  | none =>
    rw [hscan] at hc
    dsimp only at hc
    rw [List.mem_singleton] at hc
    subst hc
    rfl
  | some jb =>
    rw [hscan] at hc
    dsimp only at hc
    rw [List.mem_append, List.mem_append] at hc
    rcases hc with (hc | hc) | hc
    · rw [List.mem_singleton] at hc
      subst hc
      rfl
    · split_ifs at hc
      · rw [List.mem_singleton] at hc
        subst hc
        rfl
      · exact absurd hc (List.not_mem_nil c)
    · split_ifs at hc
      · rw [List.mem_singleton] at hc
        subst hc
        rfl
      · exact absurd hc (List.not_mem_nil c)

/-- C8, witness: on the build n = 2, cutoff = 1 with filter [1, 2] and query
range [1/2, 10], three_split_search finds the center bucket (0, 1) and its
call list is exactly the center query with the modified copy. -/
theorem claim_C8_witness :
    TSCall.center (0, 1) (qpCopy ⟨3, 4, 5, 6, 7, 8, 9, none, true⟩) ∈
      threeSplitCalls
        ⟨pointsSorted [[(0:ℚ)], [0]] [(1:ℚ), 2], filterValuesSorted [(1:ℚ), 2],
          buildBucketSizes 1 2⟩
        (mkRat 1 2, 10) ⟨3, 4, 5, 6, 7, 8, 9, none, true⟩ ∧
    tsCallParams (TSCall.center (0, 1) (qpCopy ⟨3, 4, 5, 6, 7, 8, 9, none, true⟩)) =
      (if tsCallIsCenter
          (TSCall.center (0, 1) (qpCopy ⟨3, 4, 5, 6, 7, 8, 9, none, true⟩)) then
        qpCopy ⟨3, 4, 5, 6, 7, 8, 9, none, true⟩
       else ⟨3, 4, 5, 6, 7, 8, 9, none, true⟩) :=
  ⟨by decide,
   (claim_C8
     ⟨pointsSorted [[(0:ℚ)], [0]] [(1:ℚ), 2], filterValuesSorted [(1:ℚ), 2],
       buildBucketSizes 1 2⟩
     (mkRat 1 2, 10) ⟨3, 4, 5, 6, 7, 8, 9, none, true⟩
     (TSCall.center (0, 1) (qpCopy ⟨3, 4, 5, 6, 7, 8, 9, none, true⟩))
     (by decide)).1⟩

/-- C9, counterexample to the sentinel value: scenario S2 (filter [1, 2, 3],
query range [10, 20]) admits the empty result, whose padded row carries the
largest finite float as distance, and that value is not plus-infinity. -/
theorem claim_C9_counterexample :
    fenwick_tree_search
      ⟨pointsSorted [[(0:ℚ)], [0], [0]] [(1:ℚ), 2, 3],
        filterValuesSorted [(1:ℚ), 2, 3], buildBucketSizes 1000 3⟩
      [0] (10, 20) ⟨2, 10, 1, 10, 10, 1, 1, none, false⟩ [] ∧
    (padRow (originalIds [(1:ℚ), 2, 3]) [] 2).2 =
      [((floatMax : ℚ) : WithTop ℚ), ((floatMax : ℚ) : WithTop ℚ)] ∧
    ((floatMax : ℚ) : WithTop ℚ) ≠ (⊤ : WithTop ℚ) :=
  ⟨fenwick_nil_of_empty (by decide), by decide, by decide⟩

/-- C9, amended: a query whose range [lo, hi] does not intersect
[FilterValues[0], FilterValues[n-1]] trips check_empty (the condition under
which the code logs its diagnostic), raises no error, and returns the empty
result under every strategy; batch_search pads the row with id 0 and the
largest finite float (std::numeric_limits<float>::max()) as distance — not
plus-infinity. -/
theorem claim_C9_amended (ctx : SearchCtx) (cutoff : Nat) (dec : List Nat)
    (q : List ℚ) (lo hi : ℚ) (qp : QueryParams) (out : List (Nat × ℚ))
    (hn : 1 ≤ ctx.fv.length) (hs : List.Sorted (· ≤ ·) ctx.fv)
    (_hlh : lo ≤ hi)
    (hdisj : hi < ctx.fv.headD 0 ∨ ctx.fv.getLastD 0 < lo)
    (h : fenwick_tree_search ctx q (lo, hi) qp out ∨
      optimized_postfiltering_search ctx cutoff q (lo, hi) qp out ∨
      three_split_search ctx cutoff q (lo, hi) qp out) :
    check_empty ctx.fv (lo, hi) = true ∧ out = [] ∧
    padRow dec out qp.k =
      (List.replicate qp.k 0,
       List.replicate qp.k ((floatMax : ℚ) : WithTop ℚ)) := by
  have hce := check_empty_true hdisj
  have hout : out = [] := by
    rcases h with h | h | h
    · exact fenwick_empty_out hce h
    · exact optimized_empty_out hce h
    · exact three_split_empty_out hn hs hdisj h
  exact ⟨hce, hout, by rw [hout, padRow_nil]⟩

/-- C9, witness for the amended theorem: scenario S2. -/
theorem claim_C9_witness :
    (1 ≤ (filterValuesSorted [(1:ℚ), 2, 3]).length ∧ (10:ℚ) ≤ 20) ∧
    (check_empty (filterValuesSorted [(1:ℚ), 2, 3]) (10, 20) = true ∧
      ([] : List (Nat × ℚ)) = [] ∧
      padRow (originalIds [(1:ℚ), 2, 3]) [] 2 =
        (List.replicate 2 0,
         List.replicate 2 ((floatMax : ℚ) : WithTop ℚ))) :=
  ⟨⟨by decide, by decide⟩,
   claim_C9_amended
     ⟨pointsSorted [[(0:ℚ)], [0], [0]] [(1:ℚ), 2, 3],
       filterValuesSorted [(1:ℚ), 2, 3], buildBucketSizes 1000 3⟩
     1000 (originalIds [(1:ℚ), 2, 3]) [0] 10 20
     ⟨2, 10, 1, 10, 10, 1, 1, none, false⟩ []
     (by decide) (filterValuesSorted_sorted [(1:ℚ), 2, 3]) (by decide)
     (by decide) (Or.inl (fenwick_nil_of_empty (by decide)))⟩

/-- C10, counterexample: two refuting scenarios.  First, build n = 4,
cutoff = 8 (so cutoff >= 2n and the pyramid has zero levels) over filter
[1, 2, 3, 4] and query the range [1, 10]: the query passes the emptiness
check and the small-window guard, the level scan finds nothing, index_key
stays at its value-initialized (0, 0), and the _bucket_sizes[0] access is out
of bounds on the empty vector.  Second, build n = 4, cutoff = 1 (pyramid
nonempty) and query the range [4, 4]: the query passes the emptiness check,
the window is inverted (inclusive_start = 4 > exclusive_end = 3), the size_t
guard wraps so the scan is reached, and no level satisfies the containment
test, so _bucket_sizes is indexed with the value-initialized key although no
containing (level, bucket) pair was found. -/
theorem claim_C10_counterexample :
    (check_empty (filterValuesSorted [(1:ℚ), 2, 3, 4]) (1, 10) = false ∧
    ¬ ((4 * sizeTSub
        (first_greater_than_or_equal_to (filterValuesSorted [(1:ℚ), 2, 3, 4]) 10)
        (first_greater_than (filterValuesSorted [(1:ℚ), 2, 3, 4]) 1)) %
        sizeTMod < 8) ∧
    buildBucketSizes 8 4 = [] ∧
    optScan (buildBucketSizes 8 4).enum
      (first_greater_than (filterValuesSorted [(1:ℚ), 2, 3, 4]) 1)
      (first_greater_than_or_equal_to (filterValuesSorted [(1:ℚ), 2, 3, 4]) 10) =
      none ∧
    optIndexKey (buildBucketSizes 8 4)
      (first_greater_than (filterValuesSorted [(1:ℚ), 2, 3, 4]) 1)
      (first_greater_than_or_equal_to (filterValuesSorted [(1:ℚ), 2, 3, 4]) 10) =
      (0, 0) ∧
    ¬ ((optIndexKey (buildBucketSizes 8 4)
        (first_greater_than (filterValuesSorted [(1:ℚ), 2, 3, 4]) 1)
        (first_greater_than_or_equal_to
          (filterValuesSorted [(1:ℚ), 2, 3, 4]) 10)).1 <
      (buildBucketSizes 8 4).length)) ∧
    (check_empty (filterValuesSorted [(1:ℚ), 2, 3, 4]) (4, 4) = false ∧
    first_greater_than (filterValuesSorted [(1:ℚ), 2, 3, 4]) 4 = 4 ∧
    first_greater_than_or_equal_to (filterValuesSorted [(1:ℚ), 2, 3, 4]) 4 = 3 ∧
    ¬ ((4 * sizeTSub
        (first_greater_than_or_equal_to (filterValuesSorted [(1:ℚ), 2, 3, 4]) 4)
        (first_greater_than (filterValuesSorted [(1:ℚ), 2, 3, 4]) 4)) %
        sizeTMod < 1) ∧
    buildBucketSizes 1 4 = [1, 2, 4] ∧
    optScan (buildBucketSizes 1 4).enum
      (first_greater_than (filterValuesSorted [(1:ℚ), 2, 3, 4]) 4)
      (first_greater_than_or_equal_to (filterValuesSorted [(1:ℚ), 2, 3, 4]) 4) =
      none ∧
    optIndexKey (buildBucketSizes 1 4)
      (first_greater_than (filterValuesSorted [(1:ℚ), 2, 3, 4]) 4)
      (first_greater_than_or_equal_to (filterValuesSorted [(1:ℚ), 2, 3, 4]) 4) =
      (0, 0)) := by
  decide

/-- C10, amended: provided the pyramid has at least one level (cutoff < 2n),
the (level, bucket) pair with which optimized_postfiltering_search indexes
_bucket_sizes and _spatial_indices is in bounds for every query: when the
level scan finds a containing pair, that pair's level index and bucket index
(inclusive_start / width, which the containment test equates with
(exclusive_end - 1) / width) are valid; when the scan finds nothing - which
is reachable, since an inverted window makes the size_t guard wrap and reach
the scan - the value-initialized key (0, 0) still addresses the valid level
0, bucket 0, although no containing pair was found.  With cutoff >= 2n the
pyramid is empty and the _bucket_sizes[0] access is out of bounds (see the
counterexample). -/
theorem claim_C10_amended (cutoff n : Nat) (fv : List ℚ) (lo hi : ℚ)
    (hn : 1 ≤ n) (hlen : fv.length = n)
    (hc : 1 ≤ cutoff) (hcn : cutoff < 2 * n) :
    (optIndexKey (buildBucketSizes cutoff n) (first_greater_than fv lo)
      (first_greater_than_or_equal_to fv hi)).1 <
      (buildBucketSizes cutoff n).length ∧
    (optIndexKey (buildBucketSizes cutoff n) (first_greater_than fv lo)
      (first_greater_than_or_equal_to fv hi)).2 <
      numBuckets n ((buildBucketSizes cutoff n).getD
        (optIndexKey (buildBucketSizes cutoff n) (first_greater_than fv lo)
          (first_greater_than_or_equal_to fv hi)).1 0) := by
  have hfl : 1 ≤ fv.length := by omega
  have hub := (first_greater_than_or_equal_to_bounds fv hi hfl).2
  rw [hlen] at hub
  exact optIndexKey_inbounds cutoff n _ _ hn hc hcn hub

/-- C10, witness for the amended theorem: cutoff = 1, n = 3, filter
[1, 2, 3], range [1, 10]. -/
theorem claim_C10_witness :
    (1 ≤ 3 ∧ (filterValuesSorted [(1:ℚ), 2, 3]).length = 3 ∧
      1 ≤ 1 ∧ 1 < 2 * 3) ∧
    ((optIndexKey (buildBucketSizes 1 3)
      (first_greater_than (filterValuesSorted [(1:ℚ), 2, 3]) 1)
      (first_greater_than_or_equal_to (filterValuesSorted [(1:ℚ), 2, 3]) 10)).1 <
      (buildBucketSizes 1 3).length ∧
    (optIndexKey (buildBucketSizes 1 3)
      (first_greater_than (filterValuesSorted [(1:ℚ), 2, 3]) 1)
      (first_greater_than_or_equal_to (filterValuesSorted [(1:ℚ), 2, 3]) 10)).2 <
      numBuckets 3 ((buildBucketSizes 1 3).getD
        (optIndexKey (buildBucketSizes 1 3)
          (first_greater_than (filterValuesSorted [(1:ℚ), 2, 3]) 1)
          (first_greater_than_or_equal_to (filterValuesSorted [(1:ℚ), 2, 3]) 10)).1
        0)) :=
  ⟨⟨by omega, by decide, le_refl 1, by omega⟩,
   claim_C10_amended 1 3 (filterValuesSorted [(1:ℚ), 2, 3]) 1 10
     (by omega) (by decide) (le_refl 1) (by omega)⟩
